import Mathlib

/-!
Verification of the `FunctionMaxima` container (`function_maxima.h`).

The C++ class stores a function as a multiset of (argument, value) points
ordered by argument, together with a set of its local maxima ordered by
(value descending, argument ascending).  `set_value` and `erase` maintain
the maxima set incrementally through `ChangeLocalMaximaGuard` transaction
objects, and the public handle adds copy-on-write sharing.

The embedding below represents the multiset as an argument-sorted list,
the maxima set as a list sorted by the maxima comparator, and iterators as
`Option Nat` positions (`none` playing the role of `end()`).  Places where
the C++ code can raise (allocations and comparator calls) are modelled by
an explicit failure-injection parameter, so that the rollback paths of the
source are ordinary executable code here.  Orderings are supplied by
`LinearOrder` instances, matching the `std::less` instantiations used by
the source.
-/

set_option autoImplicit false
set_option linter.unusedSectionVars false

namespace FMax

variable {α β : Type} [LinearOrder α] [LinearOrder β]

/-- Embeds `FunctionMaximaImpl::equivalentArguments`: neither argument
orders strictly before the other. -/
def equivalentArguments (a b : α) : Bool :=
  !(decide (a < b)) && !(decide (b < a))

/-- Embeds `FunctionMaximaImpl::equivalentValues`. -/
def equivalentValues (a b : β) : Bool :=
  !(decide (a < b)) && !(decide (b < a))

/-- Embeds `FunctionMaximaImpl::equivalentPoints`. -/
def equivalentPoints (p q : α × β) : Bool :=
  equivalentArguments p.1 q.1 && equivalentValues p.2 q.2

/-- Embeds `FunctionMaximaImpl::valueLessOrEqual`. -/
def valueLessOrEqual (v1 v2 : β) : Bool :=
  decide (v1 < v2) || equivalentValues v1 v2

/-- Embeds `ComparePointsByArguments::operator()` on two points. -/
def comparePointsByArguments (p q : α × β) : Bool :=
  decide (p.1 < q.1)

/-- Embeds `ComparePointsByMaximaOrder::operator()`: sorts by
non-increasing values and increasing arguments. -/
def comparePointsByMaximaOrder (p q : α × β) : Bool :=
  decide (q.2 < p.2) || (equivalentValues p.2 q.2 && decide (p.1 < q.1))

/-- Equivalence of points under the maxima-set comparator; this is the
lookup criterion used by `localMaxima.find`. -/
def equivalentMaximaOrder (p q : α × β) : Bool :=
  !(comparePointsByMaximaOrder p q) && !(comparePointsByMaximaOrder q p)

/-- The state of a `FunctionMaximaImpl`: the function multiset (kept in
argument order, as `std::multiset` does) and the local-maxima set (kept in
maxima order, as `std::set` does). -/
structure FM (α β : Type) where
  function : List (α × β)
  localMaxima : List (α × β)
deriving DecidableEq

/-- Embeds `FunctionMaximaImpl::find`: position of an element whose
argument is equivalent to `a`, or `none` for `end()`. -/
def find (fn : List (α × β)) (a : α) : Option Nat :=
  fn.findIdx? (fun p => equivalentArguments p.1 a)

/-- Embeds `FunctionMaximaImpl::safePrev`. -/
def safePrev (it : Option Nat) : Option Nat :=
  match it with
  | some i => if i = 0 then none else some (i - 1)
  | none => none

/-- Embeds `FunctionMaximaImpl::safeNext` (needs the container size to
recognise the last position). -/
def safeNext (len : Nat) (it : Option Nat) : Option Nat :=
  match it with
  | some i => if i + 1 < len then some (i + 1) else none
  | none => none

/-- Embeds `FunctionMaximaImpl::safePrevWithAvoid`. -/
def safePrevWithAvoid (it ignore : Option Nat) : Option Nat :=
  let p := safePrev it
  if p = ignore then safePrev p else p

/-- Embeds `FunctionMaximaImpl::safeNextWithAvoid`. -/
def safeNextWithAvoid (len : Nat) (it ignore : Option Nat) : Option Nat :=
  let q := safeNext len it
  if q = ignore then safeNext len q else q

/-- Embeds `FunctionMaximaImpl::firstMaximaCondition`: the left neighbour
(skipping `ignore`) is absent or has value `≤` the current one. -/
def firstMaximaCondition (fn : List (α × β)) (it ignore : Option Nat) : Bool :=
  match it with
  | none => false
  | some i =>
    if i = 0 then true
    else
      let leftIt := if (some (i - 1) : Option Nat) = ignore then safePrev (some (i - 1))
        else some (i - 1)
      match leftIt with
      | none => true
      | some j =>
        match fn[j]?, fn[i]? with
        | some l, some c => valueLessOrEqual l.2 c.2
        | _, _ => true

/-- Embeds `FunctionMaximaImpl::secondMaximaCondition`: the right
neighbour (skipping `ignore`) is absent or has value `≤` the current
one. -/
def secondMaximaCondition (fn : List (α × β)) (it ignore : Option Nat) : Bool :=
  match it with
  | none => false
  | some i =>
    let r0 : Option Nat := if i + 1 < fn.length then some (i + 1) else none
    let rightIt := if r0 = ignore then safeNext fn.length r0 else r0
    match rightIt with
    | none => true
    | some j =>
      match fn[j]?, fn[i]? with
      | some r, some c => valueLessOrEqual r.2 c.2
      | _, _ => true

/-- Embeds `FunctionMaximaImpl::isLocalMaxima`. -/
def isLocalMaxima (fn : List (α × β)) (it ignore : Option Nat) : Bool :=
  decide (it ≠ ignore) && firstMaximaCondition fn it ignore &&
    secondMaximaCondition fn it ignore

/-- `localMaxima.find p`: the stored element equivalent to `p` under the
maxima comparator, if any. -/
def mxFindPt (mx : List (α × β)) (p : α × β) : Option (α × β) :=
  mx.find? (fun q => equivalentMaximaOrder q p)

/-- Embeds `FunctionMaximaImpl::mxFind`: look the pointed-at function
element up in the maxima set; `end()` maps to `none`. -/
def mxFind (fn mx : List (α × β)) (it : Option Nat) : Option (α × β) :=
  match it with
  | some i => fn[i]?.bind (fun p => mxFindPt mx p)
  | none => none

/-- The maxima-set ordering as a relation (used to keep the maxima list
sorted exactly as `std::set<point_type, ComparePointsByMaximaOrder>`
does). -/
def MxLt (p q : α × β) : Prop := comparePointsByMaximaOrder p q = true

instance decMxLt : DecidableRel (@MxLt α β _ _) :=
  fun p q => decidable_of_iff (comparePointsByMaximaOrder p q = true) Iff.rfl

/-- `localMaxima.insert p`: a no-op when an equivalent element is already
present (set semantics), otherwise insertion at the ordered position. -/
def mxInsert (mx : List (α × β)) (p : α × β) : List (α × β) :=
  if (mxFindPt mx p).isSome then mx else List.orderedInsert MxLt p mx

/-- Embeds `FunctionMaximaImpl::mxEraseIfNotEnd`; a maxima-set iterator is
modelled by the element it points at (`none` for `end()`). -/
def mxEraseIfNotEnd (mx : List (α × β)) (it : Option (α × β)) : List (α × β) :=
  match it with
  | some p => mx.erase p
  | none => mx

/-- The record left behind by a `ChangeLocalMaximaGuard` constructor: the
maxima set after any immediate insertion, the element whose erasure is
deferred to a successful destructor, and the element inserted (to be
removed again on rollback). -/
structure GuardState (α β : Type) where
  mx : List (α × β)
  pendErase : Option (α × β)
  inserted : Option (α × β)

/-- Embeds the constructor of `ChangeLocalMaximaGuard`: decide whether the
point at `it` should be a maximum (ignoring `ignore`), insert it at once
when it is missing, and schedule a deferred erasure when it must go. -/
def changeLocalMaximaGuard (fn : List (α × β)) (it ignore : Option Nat)
    (mx : List (α × β)) : GuardState α β :=
  if it = ignore then ⟨mx, none, none⟩
  else
    let mxIt := mxFind fn mx it
    let wasMax := mxIt.isSome
    let isMax := isLocalMaxima fn it ignore
    if isMax then
      if wasMax then ⟨mx, none, none⟩
      else
        match it.bind (fun i => fn[i]?) with
        | some p => ⟨mxInsert mx p, none, some p⟩
        | none => ⟨mx, none, none⟩
    else
      if wasMax then ⟨mx, mxIt, none⟩ else ⟨mx, none, none⟩

/-- The guard destructor on the success path (`done()` was called):
perform the deferred erasure. -/
def guardCommit (mx : List (α × β)) (g : GuardState α β) : List (α × β) :=
  mxEraseIfNotEnd mx g.pendErase

/-- The guard destructor on the failure path: undo the insertion made at
construction time. -/
def guardRollback (mx : List (α × β)) (g : GuardState α β) : List (α × β) :=
  mxEraseIfNotEnd mx g.inserted

/-- Injection points for allocation/comparator failures inside a mutating
call, in the order in which the source code reaches them. -/
inductive FailPt : Type
  | atFind
  | atPointAlloc
  | atMxFind
  | atFnInsert
  | atGuardNext
  | atGuardCurr
  | atGuardPrev
deriving DecidableEq

/-- The body of `set_value` past the no-op check, with failure injection:
result state plus a flag telling whether the injected failure was reached
(and hence re-raised).  Mirrors lines 101-125 of the source including the
`catch` rollback path. -/
def set_valueGoF (s : FM α β) (a : α) (v : β) (it : Option Nat) (f : Option FailPt) :
    FM α β × Bool :=
  let pt : α × β := (a, v)
  let mxIt := mxFind s.function s.localMaxima it
  if f = some FailPt.atMxFind then (s, true) else
  let n := s.function.findIdx (fun p => decide (a < p.1))
  if f = some FailPt.atFnInsert then (s, true) else
  let fn := s.function.insertIdx n pt
  let it2 := it.map (fun i => if n ≤ i then i + 1 else i)
  let len := fn.length
  if f = some FailPt.atGuardNext then ((⟨fn.eraseIdx n, s.localMaxima⟩ : FM α β), true) else
  let g1 := changeLocalMaximaGuard fn (safeNextWithAvoid len (some n) it2) it2 s.localMaxima
  if f = some FailPt.atGuardCurr then
    ((⟨fn.eraseIdx n, guardRollback g1.mx g1⟩ : FM α β), true) else
  let g2 := changeLocalMaximaGuard fn (some n) it2 g1.mx
  if f = some FailPt.atGuardPrev then
    ((⟨fn.eraseIdx n, guardRollback (guardRollback g2.mx g2) g1⟩ : FM α β), true) else
  let g3 := changeLocalMaximaGuard fn (safePrevWithAvoid (some n) it2) it2 g2.mx
  let mxAfter := guardCommit (guardCommit (guardCommit g3.mx g3) g2) g1
  match it2 with
  | some i => ((⟨fn.eraseIdx i, mxEraseIfNotEnd mxAfter mxIt⟩ : FM α β), false)
  | none => ((⟨fn, mxAfter⟩ : FM α β), false)

/-- Embeds `FunctionMaximaImpl::set_value` with failure injection.  The
candidate point is allocated (`atPointAlloc`) before the no-op check, as
in the source. -/
def set_valueF (s : FM α β) (a : α) (v : β) (f : Option FailPt) : FM α β × Bool :=
  if f = some FailPt.atFind then (s, true) else
  let it := find s.function a
  if f = some FailPt.atPointAlloc then (s, true) else
  match it.bind (fun i => s.function[i]?) with
  | some oldPt =>
    if equivalentPoints oldPt (a, v) then (s, false) else set_valueGoF s a v it f
  | none => set_valueGoF s a v it f

/-- Embeds `FunctionMaximaImpl::erase` with failure injection.  `erase`
has no `catch`: on a failure inside the second guard the first guard's
destructor undoes its insertion. -/
def eraseF (s : FM α β) (a : α) (f : Option FailPt) : FM α β × Bool :=
  if f = some FailPt.atFind then (s, true) else
  let it := find s.function a
  let mxIt := mxFind s.function s.localMaxima it
  if f = some FailPt.atMxFind then (s, true) else
  match it with
  | none => (s, false)
  | some i =>
    if f = some FailPt.atGuardNext then (s, true) else
    let g1 := changeLocalMaximaGuard s.function (safeNext s.function.length (some i))
      (some i) s.localMaxima
    if f = some FailPt.atGuardPrev then
      ((⟨s.function, guardRollback g1.mx g1⟩ : FM α β), true) else
    let g2 := changeLocalMaximaGuard s.function (safePrev (some i)) (some i) g1.mx
    let mxAfter := guardCommit (guardCommit g2.mx g2) g1
    ((⟨s.function.eraseIdx i, mxEraseIfNotEnd mxAfter mxIt⟩ : FM α β), false)

/-- `set_value` on the success path (no failure injected). -/
def set_value (s : FM α β) (a : α) (v : β) : FM α β :=
  (set_valueF s a v none).1

/-- `erase` on the success path (no failure injected). -/
def erase (s : FM α β) (a : α) : FM α β :=
  (eraseF s a none).1

/-- Embeds `FunctionMaximaImpl::value_at`; `none` models the
`InvalidArg` exception. -/
def value_at (s : FM α β) (a : α) : Option β :=
  match (find s.function a).bind (fun i => s.function[i]?) with
  | some p => some p.2
  | none => none

/-- Embeds `FunctionMaximaImpl::size`. -/
def size (s : FM α β) : Nat := s.function.length

/-- A default-constructed `FunctionMaxima`. -/
def emptyFM : FM α β := ⟨[], []⟩

/-- Modelled from the spec: the local-maximum predicate a full rescan of
the function store would use; point `i` is a local maximum iff its left
neighbour (if any) has value `≤` its own and its right neighbour (if any)
has value `≤` its own. -/
def oracleIsMax (fn : List (α × β)) (i : Nat) : Bool :=
  match fn[i]? with
  | none => false
  | some c =>
    (decide (i = 0) ||
      (match fn[i - 1]? with
       | some l => valueLessOrEqual l.2 c.2
       | none => true)) &&
    (match fn[i + 1]? with
     | some r => valueLessOrEqual r.2 c.2
     | none => true)

/-- The function store is sorted strictly by argument. -/
def ArgSorted (fn : List (α × β)) : Prop := fn.Pairwise (fun p q => p.1 < q.1)

/-- The maxima list is sorted strictly by the maxima comparator. -/
def MxSorted (mx : List (α × β)) : Prop := mx.Pairwise MxLt

/-- The maxima list holds exactly the points a full rescan would accept. -/
def MxCorrect (s : FM α β) : Prop :=
  ∀ q : α × β, q ∈ s.localMaxima ↔
    ∃ i : Nat, s.function[i]? = some q ∧ oracleIsMax s.function i = true

/-- The representation invariant of `FunctionMaximaImpl`. -/
def Invariant (s : FM α β) : Prop :=
  ArgSorted s.function ∧ MxSorted s.localMaxima ∧ MxCorrect s

/-- States reachable from the empty structure by completed mutations. -/
inductive Reachable : FM α β → Prop
  | empty : Reachable emptyFM
  | step_set (s : FM α β) (a : α) (v : β) : Reachable s → Reachable (set_value s a v)
  | step_erase (s : FM α β) (a : α) : Reachable s → Reachable (erase s a)

/-! ### Basic facts about the comparators -/

theorem equivalentArguments_iff {a b : α} : equivalentArguments a b = true ↔ a = b := by
  simp only [equivalentArguments, Bool.and_eq_true, Bool.not_eq_true', decide_eq_false_iff_not,
    not_lt]
  constructor
  · rintro ⟨h1, h2⟩; exact le_antisymm h2 h1
  · rintro rfl; exact ⟨le_refl _, le_refl _⟩

theorem equivalentValues_iff {a b : β} : equivalentValues a b = true ↔ a = b := by
  simp only [equivalentValues, Bool.and_eq_true, Bool.not_eq_true', decide_eq_false_iff_not,
    not_lt]
  constructor
  · rintro ⟨h1, h2⟩; exact le_antisymm h2 h1
  · rintro rfl; exact ⟨le_refl _, le_refl _⟩

theorem equivalentPoints_iff {p q : α × β} : equivalentPoints p q = true ↔ p = q := by
  simp only [equivalentPoints, Bool.and_eq_true, equivalentArguments_iff, equivalentValues_iff]
  constructor
  · rintro ⟨h1, h2⟩; exact Prod.ext h1 h2
  · rintro rfl; exact ⟨rfl, rfl⟩

theorem valueLessOrEqual_iff {u v : β} : valueLessOrEqual u v = true ↔ u ≤ v := by
  simp only [valueLessOrEqual, Bool.or_eq_true, decide_eq_true_eq, equivalentValues_iff]
  constructor
  · rintro (h | rfl); exacts [le_of_lt h, le_refl _]
  · intro h; rcases lt_or_eq_of_le h with h | h
    · exact Or.inl h
    · exact Or.inr h

theorem mxLt_iff {p q : α × β} :
    MxLt p q ↔ q.2 < p.2 ∨ (p.2 = q.2 ∧ p.1 < q.1) := by
  simp only [MxLt, comparePointsByMaximaOrder, Bool.or_eq_true, decide_eq_true_eq,
    Bool.and_eq_true, equivalentValues_iff]

theorem mxLt_irrefl (p : α × β) : ¬ MxLt p p := by
  rw [mxLt_iff]; push_neg; exact ⟨le_refl _, fun _ => le_refl _⟩

theorem equivalentMaximaOrder_iff {p q : α × β} :
    equivalentMaximaOrder p q = true ↔ p = q := by
  simp only [equivalentMaximaOrder, Bool.and_eq_true, Bool.not_eq_true']
  constructor
  · rintro ⟨h1, h2⟩
    have h1' : ¬ MxLt p q := by simp [MxLt, h1]
    have h2' : ¬ MxLt q p := by simp [MxLt, h2]
    rw [mxLt_iff] at h1' h2'
    push_neg at h1' h2'
    have hv : p.2 = q.2 := le_antisymm (h1'.1) (h2'.1)
    have ha : p.1 = q.1 := le_antisymm (h2'.2 hv.symm) (h1'.2 hv)
    exact Prod.ext ha hv
  · rintro rfl
    have h : comparePointsByMaximaOrder p p = false := by
      have := mxLt_irrefl p
      simpa [MxLt] using this
    exact ⟨h, h⟩

theorem mxLt_trans {p q r : α × β} (h1 : MxLt p q) (h2 : MxLt q r) : MxLt p r := by
  rw [mxLt_iff] at h1 h2 ⊢
  rcases h1 with h1 | ⟨hv1, ha1⟩ <;> rcases h2 with h2 | ⟨hv2, ha2⟩
  · exact Or.inl (lt_trans h2 h1)
  · exact Or.inl (hv2 ▸ h1)
  · exact Or.inl (hv1 ▸ h2)
  · exact Or.inr ⟨hv1.trans hv2, lt_trans ha1 ha2⟩

theorem mxLt_trichotomy (p q : α × β) : p = q ∨ MxLt p q ∨ MxLt q p := by
  rcases lt_trichotomy p.2 q.2 with hv | hv | hv
  · exact Or.inr (Or.inr (mxLt_iff.mpr (Or.inl hv)))
  · rcases lt_trichotomy p.1 q.1 with ha | ha | ha
    · exact Or.inr (Or.inl (mxLt_iff.mpr (Or.inr ⟨hv, ha⟩)))
    · exact Or.inl (Prod.ext ha hv)
    · exact Or.inr (Or.inr (mxLt_iff.mpr (Or.inr ⟨hv.symm, ha⟩)))
  · exact Or.inr (Or.inl (mxLt_iff.mpr (Or.inl hv)))

theorem mxLt_ne {p q : α × β} (h : MxLt p q) : p ≠ q := by
  rintro rfl; exact mxLt_irrefl p h

/-! ### The maxima list as a sorted set -/

theorem mxFindPt_eq (mx : List (α × β)) (p : α × β) :
    mxFindPt mx p = if p ∈ mx then some p else none := by
  unfold mxFindPt
  rcases h : mx.find? (fun q => equivalentMaximaOrder q p) with _ | x
  · rw [List.find?_eq_none] at h
    have hp : p ∉ mx := fun hm => h p hm (by simp [equivalentMaximaOrder_iff])
    simp [hp]
  · have hpred := List.find?_some h
    have hx : x = p := equivalentMaximaOrder_iff.mp (by simpa using hpred)
    have hm : p ∈ mx := hx ▸ List.mem_of_find?_eq_some h
    simp [hm, hx]

theorem mem_mxInsert {mx : List (α × β)} {p q : α × β} :
    q ∈ mxInsert mx p ↔ q = p ∨ q ∈ mx := by
  unfold mxInsert
  rw [mxFindPt_eq]
  by_cases hp : p ∈ mx
  · simp only [hp, if_pos, Option.isSome_some, if_true]
    constructor
    · exact Or.inr
    · rintro (rfl | h); exacts [hp, h]
  · simp only [hp, if_neg, if_false, Option.isSome_none, Bool.false_eq_true]
    exact List.mem_orderedInsert MxLt

theorem mxInsert_of_not_mem {mx : List (α × β)} {p : α × β} (hp : p ∉ mx) :
    mxInsert mx p = List.orderedInsert MxLt p mx := by
  unfold mxInsert
  rw [mxFindPt_eq, if_neg hp]
  rfl

theorem mxSorted_nodup {mx : List (α × β)} (h : MxSorted mx) : mx.Nodup :=
  h.imp (fun hlt => mxLt_ne hlt)

theorem mxSorted_orderedInsert {mx : List (α × β)} {p : α × β}
    (hs : MxSorted mx) (hp : p ∉ mx) : MxSorted (List.orderedInsert MxLt p mx) := by
  induction mx with
  | nil => simp [MxSorted]
  | cons b l ih =>
    rw [MxSorted] at hs
    rcases List.pairwise_cons.mp hs with ⟨hb, hl⟩
    have hpb : p ≠ b := fun h => hp (h ▸ List.mem_cons_self b l)
    have hpl : p ∉ l := fun h => hp (List.mem_cons_of_mem b h)
    by_cases hlt : MxLt p b
    · rw [List.orderedInsert, if_pos hlt]
      refine List.pairwise_cons.mpr ⟨?_, hs⟩
      intro q hq
      rcases List.mem_cons.mp hq with rfl | hq
      · exact hlt
      · exact mxLt_trans hlt (hb q hq)
    · rw [List.orderedInsert, if_neg hlt]
      have hbp : MxLt b p := by
        rcases mxLt_trichotomy p b with h | h | h
        · exact absurd h hpb
        · exact absurd h hlt
        · exact h
      refine List.pairwise_cons.mpr ⟨?_, ih hl hpl⟩
      intro q hq
      rcases (List.mem_orderedInsert MxLt).mp hq with rfl | hq
      · exact hbp
      · exact hb q hq

theorem mxSorted_mxInsert {mx : List (α × β)} {p : α × β} (hs : MxSorted mx) :
    MxSorted (mxInsert mx p) := by
  by_cases hp : p ∈ mx
  · unfold mxInsert
    rw [mxFindPt_eq, if_pos hp]
    simpa using hs
  · rw [mxInsert_of_not_mem hp]
    exact mxSorted_orderedInsert hs hp

theorem erase_orderedInsert_of_not_mem {mx : List (α × β)} {p : α × β} (hp : p ∉ mx) :
    (List.orderedInsert MxLt p mx).erase p = mx := by
  induction mx with
  | nil => simp [List.orderedInsert]
  | cons b l ih =>
    have hpb : p ≠ b := fun h => hp (h ▸ List.mem_cons_self b l)
    have hpl : p ∉ l := fun h => hp (List.mem_cons_of_mem b h)
    by_cases hlt : MxLt p b
    · rw [List.orderedInsert, if_pos hlt, List.erase_cons_head]
    · rw [List.orderedInsert, if_neg hlt,
        List.erase_cons_tail (by simp [Ne.symm hpb]), ih hpl]

theorem mxInsert_erase_of_not_mem {mx : List (α × β)} {p : α × β} (hp : p ∉ mx) :
    (mxInsert mx p).erase p = mx := by
  rw [mxInsert_of_not_mem hp]
  exact erase_orderedInsert_of_not_mem hp

theorem mxSorted_erase {mx : List (α × β)} (hs : MxSorted mx) (q : α × β) :
    MxSorted (mx.erase q) :=
  List.Pairwise.sublist (List.erase_sublist q mx) hs

theorem mem_erase_of_nodup {mx : List (α × β)} (hnd : mx.Nodup) {q x : α × β} :
    q ∈ mx.erase x ↔ q ∈ mx ∧ q ≠ x := by
  rw [hnd.mem_erase_iff, and_comm]

theorem mem_mxEraseIfNotEnd {mx : List (α × β)} (hnd : mx.Nodup) {it : Option (α × β)}
    {q : α × β} :
    q ∈ mxEraseIfNotEnd mx it ↔ q ∈ mx ∧ it ≠ some q := by
  cases it with
  | none => simp [mxEraseIfNotEnd]
  | some x =>
    unfold mxEraseIfNotEnd
    rw [mem_erase_of_nodup hnd]
    constructor
    · rintro ⟨h1, h2⟩; exact ⟨h1, by simpa [eq_comm] using h2⟩
    · rintro ⟨h1, h2⟩; exact ⟨h1, by simpa [eq_comm] using h2⟩

theorem mxSorted_mxEraseIfNotEnd {mx : List (α × β)} (hs : MxSorted mx)
    (it : Option (α × β)) : MxSorted (mxEraseIfNotEnd mx it) := by
  cases it with
  | none => exact hs
  | some x => exact mxSorted_erase hs x

/-! ### Index bookkeeping for `insertIdx` and `eraseIdx` -/

section IndexLemmas

variable {γ : Type}

theorem getElem?_insertIdx_lt {l : List γ} {n k : Nat} {x : γ}
    (hn : n ≤ l.length) (hk : k < n) : (l.insertIdx n x)[k]? = l[k]? := by
  have hkl : k < l.length := lt_of_lt_of_le hk hn
  have hkl' : k < (l.insertIdx n x).length := by
    rw [List.length_insertIdx n l hn]; omega
  rw [List.getElem?_eq_getElem hkl', List.getElem?_eq_getElem hkl,
    List.getElem_insertIdx_of_lt l x n k hk hkl]

theorem getElem?_insertIdx_self {l : List γ} {n : Nat} {x : γ}
    (hn : n ≤ l.length) : (l.insertIdx n x)[n]? = some x := by
  have hn' : n < (l.insertIdx n x).length := by
    rw [List.length_insertIdx n l hn]; omega
  rw [List.getElem?_eq_getElem hn', List.getElem_insertIdx_self l x n hn]

theorem getElem?_insertIdx_succ {l : List γ} {n k : Nat} {x : γ}
    (hn : n ≤ l.length) (hk : n ≤ k) : (l.insertIdx n x)[k + 1]? = l[k]? := by
  obtain ⟨m, rfl⟩ : ∃ m, k = n + m := ⟨k - n, by omega⟩
  by_cases hkl : n + m < l.length
  · have hkl' : n + m + 1 < (l.insertIdx n x).length := by
      rw [List.length_insertIdx n l hn]; omega
    rw [List.getElem?_eq_getElem hkl', List.getElem?_eq_getElem hkl]
    rw [List.getElem_insertIdx_add_succ l x n m hkl]
  · have h1 : (l.insertIdx n x).length ≤ n + m + 1 := by
      rw [List.length_insertIdx n l hn]; omega
    rw [List.getElem?_eq_none h1, List.getElem?_eq_none (by omega)]

theorem eraseIdx_insertIdx_succ {l : List γ} {i : Nat} {x : γ} (hi : i < l.length) :
    (l.insertIdx (i + 1) x).eraseIdx i = l.set i x := by
  apply List.ext_getElem?
  intro j
  rcases lt_trichotomy j i with hj | rfl | hj
  · rw [List.getElem?_eraseIdx_of_lt _ _ _ hj, getElem?_insertIdx_lt (by omega) (by omega),
      List.getElem?_set_ne (by omega)]
  · rw [List.getElem?_eraseIdx_of_ge _ _ _ (le_refl _),
      getElem?_insertIdx_self (by omega), List.getElem?_set_self hi]
  · rw [List.getElem?_eraseIdx_of_ge _ _ _ (by omega),
      getElem?_insertIdx_succ (by omega) (by omega), List.getElem?_set_ne (by omega)]

end IndexLemmas

/-! ### The function store under `ArgSorted` -/

theorem equivalentArguments_eq_false_iff {a b : α} :
    equivalentArguments a b = false ↔ a ≠ b := by
  constructor
  · intro h hab
    have h2 := equivalentArguments_iff.mpr hab
    rw [h2] at h
    cases h
  · intro h
    cases heq : equivalentArguments a b
    · rfl
    · exact absurd (equivalentArguments_iff.mp heq) h

theorem argSorted_iff {fn : List (α × β)} :
    ArgSorted fn ↔ ∀ (i j : Nat) (p q : α × β), i < j →
      fn[i]? = some p → fn[j]? = some q → p.1 < q.1 := by
  unfold ArgSorted
  rw [List.pairwise_iff_getElem]
  constructor
  · intro h i j p q hij hp hq
    obtain ⟨hi, rfl⟩ := List.getElem?_eq_some_iff.mp hp
    obtain ⟨hj, rfl⟩ := List.getElem?_eq_some_iff.mp hq
    exact h i j hi hj hij
  · intro h i j hi hj hij
    exact h i j _ _ hij (List.getElem?_eq_getElem hi) (List.getElem?_eq_getElem hj)

theorem argSorted_nodupFst {fn : List (α × β)} (hs : ArgSorted fn) {i j : Nat}
    {p q : α × β} (hp : fn[i]? = some p) (hq : fn[j]? = some q) (hfst : p.1 = q.1) :
    i = j := by
  rcases lt_trichotomy i j with h | h | h
  · exact absurd (hfst ▸ argSorted_iff.mp hs i j p q h hp hq) (lt_irrefl _)
  · exact h
  · exact absurd (hfst ▸ argSorted_iff.mp hs j i q p h hq hp) (lt_irrefl _)

theorem find_eq_none_iff {fn : List (α × β)} {a : α} :
    find fn a = none ↔ ∀ p ∈ fn, p.1 ≠ a := by
  unfold find
  rw [List.findIdx?_eq_none_iff]
  constructor
  · intro h p hp
    exact equivalentArguments_eq_false_iff.mp (h p hp)
  · intro h p hp
    exact equivalentArguments_eq_false_iff.mpr (h p hp)

theorem find_eq_some_of {fn : List (α × β)} {a : α} {i : Nat} (hs : ArgSorted fn)
    {p : α × β} (hp : fn[i]? = some p) (ha : p.1 = a) : find fn a = some i := by
  obtain ⟨hi, rfl⟩ := List.getElem?_eq_some_iff.mp hp
  unfold find
  rw [List.findIdx?_eq_some_iff_getElem]
  refine ⟨hi, by simp [equivalentArguments_iff, ha], ?_⟩
  intro j hj
  have hjl : j < fn.length := lt_trans hj hi
  have hlt := argSorted_iff.mp hs j i fn[j] fn[i] hj
    (List.getElem?_eq_getElem hjl) (List.getElem?_eq_getElem hi)
  simp only [Bool.not_eq_true]
  exact equivalentArguments_eq_false_iff.mpr (ne_of_lt (ha ▸ hlt))

theorem find_eq_some_iff {fn : List (α × β)} {a : α} {i : Nat} (hs : ArgSorted fn) :
    find fn a = some i ↔ ∃ p : α × β, fn[i]? = some p ∧ p.1 = a := by
  constructor
  · intro h
    unfold find at h
    rw [List.findIdx?_eq_some_iff_getElem] at h
    obtain ⟨hi, hp, _⟩ := h
    exact ⟨fn[i], List.getElem?_eq_getElem hi, equivalentArguments_iff.mp (by simpa using hp)⟩
  · rintro ⟨p, hp, ha⟩
    exact find_eq_some_of hs hp ha

theorem upperBound_le_length (fn : List (α × β)) (a : α) :
    fn.findIdx (fun p => decide (a < p.1)) ≤ fn.length :=
  List.findIdx_le_length _

theorem upperBound_eq_succ {fn : List (α × β)} {a : α} {i : Nat} (hs : ArgSorted fn)
    {p : α × β} (hp : fn[i]? = some p) (ha : p.1 = a) :
    fn.findIdx (fun q => decide (a < q.1)) = i + 1 := by
  obtain ⟨hi, rfl⟩ := List.getElem?_eq_some_iff.mp hp
  have hge : i + 1 ≤ fn.findIdx (fun q => decide (a < q.1)) := by
    by_contra hcon
    push_neg at hcon
    have hn : fn.findIdx (fun q => decide (a < q.1)) ≤ i := by omega
    have hnl : fn.findIdx (fun q => decide (a < q.1)) < fn.length := lt_of_le_of_lt hn hi
    have hgot : a < (fn[fn.findIdx (fun q => decide (a < q.1))]).1 := by
      have := @List.findIdx_getElem _ (fun q => decide (a < q.1)) fn hnl
      simpa using this
    rcases eq_or_lt_of_le hn with heq | hlt
    · have h1 : fn[fn.findIdx (fun q => decide (a < q.1))]? = fn[i]? := by rw [heq]
      rw [List.getElem?_eq_getElem hnl, List.getElem?_eq_getElem hi] at h1
      have hee := Option.some.inj h1
      rw [hee, ha] at hgot
      exact lt_irrefl a hgot
    · have hio := argSorted_iff.mp hs _ i _ fn[i] hlt
        (List.getElem?_eq_getElem hnl) (List.getElem?_eq_getElem hi)
      rw [ha] at hio
      exact lt_irrefl a (lt_trans hgot hio)
  have hle : fn.findIdx (fun q => decide (a < q.1)) ≤ i + 1 := by
    by_cases hii : i + 1 < fn.length
    · by_contra hcon
      push_neg at hcon
      have hfalse := List.not_of_lt_findIdx hcon
      have hlt := argSorted_iff.mp hs i (i + 1) fn[i] fn[i + 1] (by omega)
        (List.getElem?_eq_getElem hi) (List.getElem?_eq_getElem hii)
      rw [ha] at hlt
      simp only [decide_eq_false_iff_not] at hfalse
      exact hfalse hlt
    · have := upperBound_le_length fn a
      omega
  omega

theorem upperBound_lt_of_lt {fn : List (α × β)} {a : α} {j : Nat} {p : α × β}
    (hnone : ∀ q ∈ fn, q.1 ≠ a) (hj : j < fn.findIdx (fun q => decide (a < q.1)))
    (hp : fn[j]? = some p) : p.1 < a := by
  obtain ⟨hjl, rfl⟩ := List.getElem?_eq_some_iff.mp hp
  have hfalse := List.not_of_lt_findIdx hj
  simp only [decide_eq_false_iff_not, not_lt] at hfalse
  exact lt_of_le_of_ne hfalse (hnone _ (List.getElem_mem _) )

theorem upperBound_gt {fn : List (α × β)} {a : α} {p : α × β}
    (hp : fn[fn.findIdx (fun q => decide (a < q.1))]? = some p) : a < p.1 := by
  obtain ⟨hl, rfl⟩ := List.getElem?_eq_some_iff.mp hp
  have := @List.findIdx_getElem _ (fun q => decide (a < q.1)) fn hl
  simpa using this

/-! ### What a single guard does -/

/-- The point a guard at `pos` (ignoring `ignore`) acts on, if any. -/
def posT (fn : List (α × β)) (pos ignore : Option Nat) : Option (α × β) :=
  if pos = ignore then none else pos.bind (fun i => fn[i]?)

theorem changeLocalMaximaGuard_eq_of_ignore {fn : List (α × β)} {pos ignore : Option Nat}
    {mx : List (α × β)} (h : pos = ignore) :
    changeLocalMaximaGuard fn pos ignore mx = ⟨mx, none, none⟩ := by
  unfold changeLocalMaximaGuard
  rw [if_pos h]

theorem changeLocalMaximaGuard_eq_of_invalid {fn : List (α × β)} {pos ignore : Option Nat}
    {mx : List (α × β)} (hne : pos ≠ ignore) (h : pos.bind (fun i => fn[i]?) = none) :
    changeLocalMaximaGuard fn pos ignore mx = ⟨mx, none, none⟩ := by
  have hmx : mxFind fn mx pos = none := by
    cases pos with
    | none => rfl
    | some i =>
      have h' : fn[i]? = none := by simpa using h
      simp only [mxFind, h']
      rfl
  unfold changeLocalMaximaGuard
  rw [if_neg hne, hmx, h]
  simp only [Option.isSome_none, Bool.false_eq_true, if_false]
  split
  · rfl
  · rfl

theorem changeLocalMaximaGuard_eq_valid {fn : List (α × β)} {i : Nat}
    {ignore : Option Nat} {mx : List (α × β)} {p : α × β}
    (hp : fn[i]? = some p) (hne : (some i : Option Nat) ≠ ignore) :
    changeLocalMaximaGuard fn (some i) ignore mx =
      if isLocalMaxima fn (some i) ignore then
        (if p ∈ mx then ⟨mx, none, none⟩ else ⟨mxInsert mx p, none, some p⟩)
      else
        (if p ∈ mx then ⟨mx, some p, none⟩ else ⟨mx, none, none⟩) := by
  have hb : (some i).bind (fun j => fn[j]?) = some p := by simpa using hp
  have hmx : mxFind fn mx (some i) = if p ∈ mx then some p else none := by
    simp only [mxFind, hp]
    exact mxFindPt_eq mx p
  by_cases hm : p ∈ mx <;>
    by_cases hL : isLocalMaxima fn (some i) ignore = true <;>
      simp [changeLocalMaximaGuard, if_neg hne, hmx, hb, hm, hL]

theorem guard_mx_mem {fn : List (α × β)} {pos ignore : Option Nat} {mx : List (α × β)}
    {q : α × β} :
    q ∈ (changeLocalMaximaGuard fn pos ignore mx).mx ↔
      q ∈ mx ∨ (posT fn pos ignore = some q ∧ isLocalMaxima fn pos ignore = true) := by
  by_cases hig : pos = ignore
  · rw [changeLocalMaximaGuard_eq_of_ignore hig]
    simp [posT, hig]
  · cases hv : pos.bind (fun i => fn[i]?) with
    | none =>
      rw [changeLocalMaximaGuard_eq_of_invalid hig hv]
      simp [posT, hig, hv]
    | some p =>
      obtain ⟨i, rfl⟩ : ∃ i, pos = some i := by
        cases pos with
        | none => cases hv
        | some i => exact ⟨i, rfl⟩
      have hp : fn[i]? = some p := by simpa using hv
      rw [changeLocalMaximaGuard_eq_valid hp hig]
      have hT : posT fn (some i) ignore = some p := by
        simp [posT, hig, hp]
      rw [hT]
      by_cases hL : isLocalMaxima fn (some i) ignore
      · rw [if_pos hL]
        by_cases hm : p ∈ mx
        · rw [if_pos hm]
          constructor
          · exact Or.inl
          · rintro (h | ⟨hq, _⟩)
            · exact h
            · exact (Option.some.inj hq) ▸ hm
        · rw [if_neg hm]
          show q ∈ mxInsert mx p ↔ _
          rw [mem_mxInsert]
          constructor
          · rintro (rfl | h)
            · exact Or.inr ⟨rfl, hL⟩
            · exact Or.inl h
          · rintro (h | ⟨hq, _⟩)
            · exact Or.inr h
            · exact Or.inl (Option.some.inj hq).symm
      · rw [if_neg hL]
        have hL' : isLocalMaxima fn (some i) ignore = false := by
          simpa using hL
        by_cases hm : p ∈ mx
        · rw [if_pos hm]
          simp [hL']
        · rw [if_neg hm]
          simp [hL']

theorem guard_mx_sorted {fn : List (α × β)} {pos ignore : Option Nat} {mx : List (α × β)}
    (hs : MxSorted mx) : MxSorted (changeLocalMaximaGuard fn pos ignore mx).mx := by
  by_cases hig : pos = ignore
  · rw [changeLocalMaximaGuard_eq_of_ignore hig]; exact hs
  · cases hv : pos.bind (fun i => fn[i]?) with
    | none => rw [changeLocalMaximaGuard_eq_of_invalid hig hv]; exact hs
    | some p =>
      obtain ⟨i, rfl⟩ : ∃ i, pos = some i := by
        cases pos with
        | none => cases hv
        | some i => exact ⟨i, rfl⟩
      have hp : fn[i]? = some p := by simpa using hv
      rw [changeLocalMaximaGuard_eq_valid hp hig]
      by_cases hL : isLocalMaxima fn (some i) ignore = true <;> by_cases hm : p ∈ mx <;>
        simp only [hL, hm, if_true, if_false, Bool.false_eq_true, if_pos, if_neg,
          not_false_iff] <;>
        first
          | exact hs
          | exact mxSorted_mxInsert hs

theorem guard_pendErase_eq_some {fn : List (α × β)} {pos ignore : Option Nat}
    {mx : List (α × β)} {x : α × β} :
    (changeLocalMaximaGuard fn pos ignore mx).pendErase = some x ↔
      (posT fn pos ignore = some x ∧ x ∈ mx ∧ isLocalMaxima fn pos ignore = false) := by
  by_cases hig : pos = ignore
  · rw [changeLocalMaximaGuard_eq_of_ignore hig]
    simp [posT, hig]
  · cases hv : pos.bind (fun i => fn[i]?) with
    | none =>
      rw [changeLocalMaximaGuard_eq_of_invalid hig hv]
      simp [posT, hig, hv]
    | some p =>
      obtain ⟨i, rfl⟩ : ∃ i, pos = some i := by
        cases pos with
        | none => cases hv
        | some i => exact ⟨i, rfl⟩
      have hp : fn[i]? = some p := by simpa using hv
      rw [changeLocalMaximaGuard_eq_valid hp hig]
      have hT : posT fn (some i) ignore = some p := by
        simp [posT, hig, hp]
      rw [hT]
      by_cases hL : isLocalMaxima fn (some i) ignore = true <;> by_cases hm : p ∈ mx <;>
        simp only [hL, hm, if_true, if_false, Bool.false_eq_true, if_pos, if_neg,
          not_false_iff] <;>
        simp_all
      all_goals
        rintro rfl
        exact hm

theorem bool_eq_false_of_not {b : Bool} (h : ¬ b = true) : b = false := by
  cases b
  · rfl
  · exact absurd rfl h

/-- The combined effect on the maxima set of the three guards of a mutating
call followed by their destructors (deferred erasures executed in reverse
construction order): each target position ends up a member exactly when its
maximum test said so, and every other point keeps its membership. -/
theorem pipeline_mem {fn : List (α × β)} {pos1 pos2 pos3 ignore : Option Nat}
    {mx0 : List (α × β)} (hs : MxSorted mx0)
    (hd12 : ∀ x : α × β, posT fn pos1 ignore = some x → posT fn pos2 ignore ≠ some x)
    (hd13 : ∀ x : α × β, posT fn pos1 ignore = some x → posT fn pos3 ignore ≠ some x)
    (hd23 : ∀ x : α × β, posT fn pos2 ignore = some x → posT fn pos3 ignore ≠ some x)
    {g1 g2 g3 : GuardState α β}
    (hg1 : g1 = changeLocalMaximaGuard fn pos1 ignore mx0)
    (hg2 : g2 = changeLocalMaximaGuard fn pos2 ignore g1.mx)
    (hg3 : g3 = changeLocalMaximaGuard fn pos3 ignore g2.mx) :
    MxSorted (guardCommit (guardCommit (guardCommit g3.mx g3) g2) g1) ∧
      ∀ q : α × β,
        (q ∈ guardCommit (guardCommit (guardCommit g3.mx g3) g2) g1 ↔
          (if posT fn pos1 ignore = some q then isLocalMaxima fn pos1 ignore = true
           else if posT fn pos2 ignore = some q then isLocalMaxima fn pos2 ignore = true
           else if posT fn pos3 ignore = some q then isLocalMaxima fn pos3 ignore = true
           else q ∈ mx0)) := by
  have hs1 : MxSorted g1.mx := by rw [hg1]; exact guard_mx_sorted hs
  have hs2 : MxSorted g2.mx := by rw [hg2]; exact guard_mx_sorted hs1
  have hs3 : MxSorted g3.mx := by rw [hg3]; exact guard_mx_sorted hs2
  have hsc1 : MxSorted (mxEraseIfNotEnd g3.mx g3.pendErase) :=
    mxSorted_mxEraseIfNotEnd hs3 _
  have hsc2 : MxSorted (mxEraseIfNotEnd (mxEraseIfNotEnd g3.mx g3.pendErase) g2.pendErase) :=
    mxSorted_mxEraseIfNotEnd hsc1 _
  have hsc3 : MxSorted (mxEraseIfNotEnd
      (mxEraseIfNotEnd (mxEraseIfNotEnd g3.mx g3.pendErase) g2.pendErase) g1.pendErase) :=
    mxSorted_mxEraseIfNotEnd hsc2 _
  refine ⟨hsc3, ?_⟩
  intro q
  show q ∈ mxEraseIfNotEnd
      (mxEraseIfNotEnd (mxEraseIfNotEnd g3.mx g3.pendErase) g2.pendErase) g1.pendErase ↔ _
  rw [mem_mxEraseIfNotEnd (mxSorted_nodup hsc2),
    mem_mxEraseIfNotEnd (mxSorted_nodup hsc1),
    mem_mxEraseIfNotEnd (mxSorted_nodup hs3)]
  have hm1 : q ∈ g1.mx ↔ q ∈ mx0 ∨
      (posT fn pos1 ignore = some q ∧ isLocalMaxima fn pos1 ignore = true) := by
    rw [hg1]; exact guard_mx_mem
  have hm2 : q ∈ g2.mx ↔ q ∈ g1.mx ∨
      (posT fn pos2 ignore = some q ∧ isLocalMaxima fn pos2 ignore = true) := by
    rw [hg2]; exact guard_mx_mem
  have hm3 : q ∈ g3.mx ↔ q ∈ g2.mx ∨
      (posT fn pos3 ignore = some q ∧ isLocalMaxima fn pos3 ignore = true) := by
    rw [hg3]; exact guard_mx_mem
  have hp1 : g1.pendErase = some q ↔
      (posT fn pos1 ignore = some q ∧ q ∈ mx0 ∧ isLocalMaxima fn pos1 ignore = false) := by
    rw [hg1]; exact guard_pendErase_eq_some
  have hp2 : g2.pendErase = some q ↔
      (posT fn pos2 ignore = some q ∧ q ∈ g1.mx ∧ isLocalMaxima fn pos2 ignore = false) := by
    rw [hg2]; exact guard_pendErase_eq_some
  have hp3 : g3.pendErase = some q ↔
      (posT fn pos3 ignore = some q ∧ q ∈ g2.mx ∧ isLocalMaxima fn pos3 ignore = false) := by
    rw [hg3]; exact guard_pendErase_eq_some
  simp only [ne_eq, hp1, hp2, hp3, hm3, hm2, hm1]
  by_cases h1 : posT fn pos1 ignore = some q
  · have h2 : posT fn pos2 ignore ≠ some q := hd12 q h1
    have h3 : posT fn pos3 ignore ≠ some q := hd13 q h1
    by_cases hb : isLocalMaxima fn pos1 ignore = true
    · simp [h1, h2, h3, hb]
    · have hbf := bool_eq_false_of_not hb
      simp [h1, h2, h3, hbf]
  · by_cases h2 : posT fn pos2 ignore = some q
    · have h3 : posT fn pos3 ignore ≠ some q := hd23 q h2
      by_cases hb : isLocalMaxima fn pos2 ignore = true
      · simp [h1, h2, h3, hb]
      · have hbf := bool_eq_false_of_not hb
        simp [h1, h2, h3, hbf]
    · by_cases h3 : posT fn pos3 ignore = some q
      · by_cases hb : isLocalMaxima fn pos3 ignore = true
        · simp [h1, h2, h3, hb]
        · have hbf := bool_eq_false_of_not hb
          simp [h1, h2, h3, hbf]
      · simp [h1, h2, h3]

/-! ### The neighbour-skipping tests agree with a rescan of the final store -/

theorem isLocalMaxima_no_ignore {fn : List (α × β)} {j : Nat} (hj : j < fn.length) :
    isLocalMaxima fn (some j) none = oracleIsMax fn j := by
  obtain ⟨c, hc⟩ : ∃ c, fn[j]? = some c := ⟨fn[j], List.getElem?_eq_getElem hj⟩
  by_cases h0 : j = 0
  · subst h0
    by_cases hlast : 1 < fn.length
    · obtain ⟨r, hr⟩ : ∃ r, fn[1]? = some r := ⟨fn[1], List.getElem?_eq_getElem hlast⟩
      simp [isLocalMaxima, firstMaximaCondition, secondMaximaCondition, oracleIsMax,
        hc, hr, hlast, safeNext]
    · have hnone : fn[1]? = none := List.getElem?_eq_none (by omega)
      simp [isLocalMaxima, firstMaximaCondition, secondMaximaCondition, oracleIsMax,
        hc, hnone, hlast, safeNext]
  · obtain ⟨l, hl⟩ : ∃ l, fn[j - 1]? = some l :=
      ⟨fn[j - 1], List.getElem?_eq_getElem (by omega)⟩
    by_cases hlast : j + 1 < fn.length
    · obtain ⟨r, hr⟩ : ∃ r, fn[j + 1]? = some r := ⟨fn[j + 1], List.getElem?_eq_getElem hlast⟩
      simp [isLocalMaxima, firstMaximaCondition, secondMaximaCondition, oracleIsMax,
        hc, hl, hr, h0, hlast, safeNext]
    · have hnone : fn[j + 1]? = none := List.getElem?_eq_none (by omega)
      simp [isLocalMaxima, firstMaximaCondition, secondMaximaCondition, oracleIsMax,
        hc, hl, hnone, h0, hlast, safeNext]

theorem isLocalMaxima_replace_curr {fn : List (α × β)} {i : Nat} {pt : α × β}
    (hi : i < fn.length) :
    isLocalMaxima (fn.insertIdx (i + 1) pt) (some (i + 1)) (some i) =
      oracleIsMax (fn.set i pt) i := by
  have hn : i + 1 ≤ fn.length := hi
  have hlen : (fn.insertIdx (i + 1) pt).length = fn.length + 1 :=
    List.length_insertIdx _ _ hn
  have hself : (fn.insertIdx (i + 1) pt)[i + 1]? = some pt := getElem?_insertIdx_self hn
  have hcset : (fn.set i pt)[i]? = some pt := List.getElem?_set_self hi
  by_cases h0 : i = 0
  · subst h0
    by_cases hlast : 1 < fn.length
    · obtain ⟨r, hr⟩ : ∃ r, fn[1]? = some r := ⟨fn[1], List.getElem?_eq_getElem hlast⟩
      have hr' : (fn.insertIdx 1 pt)[2]? = some r := by
        have := getElem?_insertIdx_succ (l := fn) (n := 1) (k := 1) (x := pt) hn (by omega)
        rw [this, hr]
      have hrs : (fn.set 0 pt)[1]? = some r := by
        rw [List.getElem?_set_ne (by omega), hr]
      have h2 : 2 < fn.length + 1 := by omega
      simp [isLocalMaxima, firstMaximaCondition, secondMaximaCondition, oracleIsMax,
        safePrev, safeNext, hself, hcset, hr', hrs, hlen, h2]
    · have hrn : (fn.insertIdx 1 pt)[2]? = none := by
        rw [List.getElem?_eq_none_iff, hlen]; omega
      have hrsn : (fn.set 0 pt)[1]? = none := by
        rw [List.getElem?_eq_none_iff, List.length_set]; omega
      have h2 : ¬ 2 < fn.length + 1 := by omega
      simp [isLocalMaxima, firstMaximaCondition, secondMaximaCondition, oracleIsMax,
        safePrev, safeNext, hself, hcset, hrn, hrsn, hlen, h2]
  · obtain ⟨l, hl⟩ : ∃ l, fn[i - 1]? = some l :=
      ⟨fn[i - 1], List.getElem?_eq_getElem (by omega)⟩
    have hl' : (fn.insertIdx (i + 1) pt)[i - 1]? = some l := by
      rw [getElem?_insertIdx_lt hn (by omega), hl]
    have hls : (fn.set i pt)[i - 1]? = some l := by
      rw [List.getElem?_set_ne (by omega), hl]
    by_cases hlast : i + 1 < fn.length
    · obtain ⟨r, hr⟩ : ∃ r, fn[i + 1]? = some r :=
        ⟨fn[i + 1], List.getElem?_eq_getElem hlast⟩
      have hr' : (fn.insertIdx (i + 1) pt)[i + 2]? = some r := by
        have := getElem?_insertIdx_succ (l := fn) (n := i + 1) (k := i + 1) (x := pt) hn
          (by omega)
        rw [this, hr]
      have hrs : (fn.set i pt)[i + 1]? = some r := by
        rw [List.getElem?_set_ne (by omega), hr]
      have h2 : i + 1 + 1 < fn.length + 1 := by omega
      have hne2 : ¬ i + 1 + 1 = i := by omega
      simp [isLocalMaxima, firstMaximaCondition, secondMaximaCondition, oracleIsMax,
        safePrev, safeNext, hself, hcset, hl', hls, hr', hrs, hlen, h2, h0, hne2]
    · have hrn : (fn.insertIdx (i + 1) pt)[i + 2]? = none := by
        rw [List.getElem?_eq_none_iff, hlen]; omega
      have hrsn : (fn.set i pt)[i + 1]? = none := by
        rw [List.getElem?_eq_none_iff, List.length_set]; omega
      have h2 : ¬ i + 1 + 1 < fn.length + 1 := by omega
      simp [isLocalMaxima, firstMaximaCondition, secondMaximaCondition, oracleIsMax,
        safePrev, safeNext, hself, hcset, hl', hls, hrn, hrsn, hlen, h2, h0]

theorem isLocalMaxima_replace_next {fn : List (α × β)} {i : Nat} {pt : α × β}
    (hi : i < fn.length) (hnext : i + 1 < fn.length) :
    isLocalMaxima (fn.insertIdx (i + 1) pt) (some (i + 2)) (some i) =
      oracleIsMax (fn.set i pt) (i + 1) := by
  have hn : i + 1 ≤ fn.length := hi
  have hlen : (fn.insertIdx (i + 1) pt).length = fn.length + 1 :=
    List.length_insertIdx _ _ hn
  have hself : (fn.insertIdx (i + 1) pt)[i + 1]? = some pt := getElem?_insertIdx_self hn
  have hpset : (fn.set i pt)[i]? = some pt := List.getElem?_set_self hi
  obtain ⟨r, hr⟩ : ∃ r, fn[i + 1]? = some r :=
    ⟨fn[i + 1], List.getElem?_eq_getElem hnext⟩
  have hr' : (fn.insertIdx (i + 1) pt)[i + 2]? = some r := by
    have := getElem?_insertIdx_succ (l := fn) (n := i + 1) (k := i + 1) (x := pt) hn (by omega)
    rw [this, hr]
  have hrs : (fn.set i pt)[i + 1]? = some r := by
    rw [List.getElem?_set_ne (by omega), hr]
  have hne1 : ¬ i + 1 = i := by omega
  have hne3 : ¬ i + 2 + 1 = i := by omega
  by_cases hlast : i + 2 < fn.length
  · obtain ⟨s, hq⟩ : ∃ s, fn[i + 2]? = some s :=
      ⟨fn[i + 2], List.getElem?_eq_getElem hlast⟩
    have hq' : (fn.insertIdx (i + 1) pt)[i + 3]? = some s := by
      have := getElem?_insertIdx_succ (l := fn) (n := i + 1) (k := i + 2) (x := pt) hn (by omega)
      rw [this, hq]
    have hqs : (fn.set i pt)[i + 2]? = some s := by
      rw [List.getElem?_set_ne (by omega), hq]
    have h3 : i + 2 + 1 < fn.length + 1 := by omega
    simp [isLocalMaxima, firstMaximaCondition, secondMaximaCondition, oracleIsMax,
      safePrev, safeNext, hself, hpset, hr', hrs, hq', hqs, hlen, h3, hne1, hne3]
  · have hqn : (fn.insertIdx (i + 1) pt)[i + 3]? = none := by
      rw [List.getElem?_eq_none_iff, hlen]; omega
    have hqsn : (fn.set i pt)[i + 2]? = none := by
      rw [List.getElem?_eq_none_iff, List.length_set]; omega
    have h3 : ¬ i + 2 + 1 < fn.length + 1 := by omega
    simp [isLocalMaxima, firstMaximaCondition, secondMaximaCondition, oracleIsMax,
      safePrev, safeNext, hself, hpset, hr', hrs, hqn, hqsn, hlen, h3, hne1, hne3]

theorem isLocalMaxima_replace_prev {fn : List (α × β)} {i : Nat} {pt : α × β}
    (hi : i < fn.length) (h1 : 1 ≤ i) :
    isLocalMaxima (fn.insertIdx (i + 1) pt) (some (i - 1)) (some i) =
      oracleIsMax (fn.set i pt) (i - 1) := by
  have hn : i + 1 ≤ fn.length := hi
  have hlen : (fn.insertIdx (i + 1) pt).length = fn.length + 1 :=
    List.length_insertIdx _ _ hn
  have hself : (fn.insertIdx (i + 1) pt)[i + 1]? = some pt := getElem?_insertIdx_self hn
  have hpset : (fn.set i pt)[i]? = some pt := List.getElem?_set_self hi
  obtain ⟨m, hm⟩ : ∃ m, fn[i - 1]? = some m :=
    ⟨fn[i - 1], List.getElem?_eq_getElem (by omega)⟩
  have hm' : (fn.insertIdx (i + 1) pt)[i - 1]? = some m := by
    rw [getElem?_insertIdx_lt hn (by omega), hm]
  have hms : (fn.set i pt)[i - 1]? = some m := by
    rw [List.getElem?_set_ne (by omega), hm]
  have hia : i - 1 + 1 = i := by omega
  have hne0 : ¬ i - 1 = i := by omega
  have hti : i < fn.length + 1 := by omega
  have hti2 : i + 1 < fn.length + 1 := by omega
  by_cases hi1 : i = 1
  · subst hi1
    have hm0 : fn[0]? = some m := by simpa using hm
    have hm0' : (fn.insertIdx 2 pt)[0]? = some m := by simpa using hm'
    have hms0 : (fn.set 1 pt)[0]? = some m := by simpa using hms
    simp [isLocalMaxima, firstMaximaCondition, secondMaximaCondition, oracleIsMax,
      safePrev, safeNext, hself, hpset, hm0, hm0', hms0, hlen, hia, hne0, hti, hti2]
  · obtain ⟨l, hl⟩ : ∃ l, fn[i - 2]? = some l :=
      ⟨fn[i - 2], List.getElem?_eq_getElem (by omega)⟩
    have hl' : (fn.insertIdx (i + 1) pt)[i - 1 - 1]? = some l := by
      rw [getElem?_insertIdx_lt hn (by omega)]
      have : i - 1 - 1 = i - 2 := by omega
      rw [this, hl]
    have hls : (fn.set i pt)[i - 1 - 1]? = some l := by
      rw [List.getElem?_set_ne (by omega)]
      have : i - 1 - 1 = i - 2 := by omega
      rw [this, hl]
    have hne2 : ¬ i - 1 - 1 = i := by omega
    have h10 : ¬ i - 1 = 0 := by omega
    simp [isLocalMaxima, firstMaximaCondition, secondMaximaCondition, oracleIsMax,
      safePrev, safeNext, hself, hpset, hm', hms, hl', hls, hlen, hia, hne0, hne2, h10,
      hti, hti2]

theorem isLocalMaxima_erase_next {fn : List (α × β)} {i : Nat}
    (hi : i < fn.length) (hnext : i + 1 < fn.length) :
    isLocalMaxima fn (some (i + 1)) (some i) =
      oracleIsMax (fn.eraseIdx i) i := by
  have hlenE : (fn.eraseIdx i).length = fn.length - 1 := List.length_eraseIdx_of_lt hi
  obtain ⟨r, hr⟩ : ∃ r, fn[i + 1]? = some r :=
    ⟨fn[i + 1], List.getElem?_eq_getElem hnext⟩
  have hrE : (fn.eraseIdx i)[i]? = some r := by
    rw [List.getElem?_eraseIdx_of_ge _ _ _ (le_refl i), hr]
  have hne2 : ¬ i + 2 = i := by omega
  have hne1 : ¬ i + 1 = i := by omega
  by_cases h0 : i = 0
  · subst h0
    by_cases hlast : 2 < fn.length
    · obtain ⟨s, hq⟩ : ∃ s, fn[2]? = some s := ⟨fn[2], List.getElem?_eq_getElem hlast⟩
      have hqE : (fn.eraseIdx 0)[1]? = some s := by
        rw [List.getElem?_eraseIdx_of_ge _ _ _ (by omega), hq]
      simp [isLocalMaxima, firstMaximaCondition, secondMaximaCondition, oracleIsMax,
        safePrev, safeNext, hr, hrE, hq, hqE, hlenE, hlast]
    · have hqn : fn[2]? = none := List.getElem?_eq_none (by omega)
      have hqEn : (fn.eraseIdx 0)[1]? = none := by
        rw [List.getElem?_eq_none_iff, hlenE]; omega
      simp [isLocalMaxima, firstMaximaCondition, secondMaximaCondition, oracleIsMax,
        safePrev, safeNext, hr, hrE, hqn, hqEn, hlenE, hlast]
  · obtain ⟨l, hl⟩ : ∃ l, fn[i - 1]? = some l :=
      ⟨fn[i - 1], List.getElem?_eq_getElem (by omega)⟩
    have hlE : (fn.eraseIdx i)[i - 1]? = some l := by
      rw [List.getElem?_eraseIdx_of_lt _ _ _ (by omega), hl]
    by_cases hlast : i + 2 < fn.length
    · obtain ⟨s, hq⟩ : ∃ s, fn[i + 2]? = some s :=
        ⟨fn[i + 2], List.getElem?_eq_getElem hlast⟩
      have hqE : (fn.eraseIdx i)[i + 1]? = some s := by
        rw [List.getElem?_eraseIdx_of_ge _ _ _ (by omega), hq]
      simp [isLocalMaxima, firstMaximaCondition, secondMaximaCondition, oracleIsMax,
        safePrev, safeNext, hr, hrE, hl, hlE, hq, hqE, hlenE, hlast, h0, hne2, hne1]
    · have hqn : fn[i + 2]? = none := List.getElem?_eq_none (by omega)
      have hqEn : (fn.eraseIdx i)[i + 1]? = none := by
        rw [List.getElem?_eq_none_iff, hlenE]; omega
      simp [isLocalMaxima, firstMaximaCondition, secondMaximaCondition, oracleIsMax,
        safePrev, safeNext, hr, hrE, hl, hlE, hqn, hqEn, hlenE, hlast, h0, hne2, hne1]

theorem isLocalMaxima_erase_prev {fn : List (α × β)} {i : Nat}
    (hi : i < fn.length) (h1 : 1 ≤ i) :
    isLocalMaxima fn (some (i - 1)) (some i) =
      oracleIsMax (fn.eraseIdx i) (i - 1) := by
  have hlenE : (fn.eraseIdx i).length = fn.length - 1 := List.length_eraseIdx_of_lt hi
  obtain ⟨m, hm⟩ : ∃ m, fn[i - 1]? = some m :=
    ⟨fn[i - 1], List.getElem?_eq_getElem (by omega)⟩
  have hmE : (fn.eraseIdx i)[i - 1]? = some m := by
    rw [List.getElem?_eraseIdx_of_lt _ _ _ (by omega), hm]
  have hia : i - 1 + 1 = i := by omega
  have hne0 : ¬ i - 1 = i := by omega
  have hti : i < fn.length := hi
  by_cases hnext : i + 1 < fn.length
  · obtain ⟨r, hr⟩ : ∃ r, fn[i + 1]? = some r :=
      ⟨fn[i + 1], List.getElem?_eq_getElem hnext⟩
    have hrE : (fn.eraseIdx i)[i]? = some r := by
      rw [List.getElem?_eraseIdx_of_ge _ _ _ (le_refl i), hr]
    by_cases hi1 : i = 1
    · subst hi1
      have hm0 : fn[0]? = some m := by simpa using hm
      have hmE0 : (fn.eraseIdx 1)[0]? = some m := by simpa using hmE
      simp [isLocalMaxima, firstMaximaCondition, secondMaximaCondition, oracleIsMax,
        safePrev, safeNext, hm0, hmE0, hr, hrE, hlenE, hia, hne0, hti, hnext]
    · obtain ⟨l, hl⟩ : ∃ l, fn[i - 2]? = some l :=
        ⟨fn[i - 2], List.getElem?_eq_getElem (by omega)⟩
      have hlE : (fn.eraseIdx i)[i - 1 - 1]? = some l := by
        rw [List.getElem?_eraseIdx_of_lt _ _ _ (by omega)]
        have : i - 1 - 1 = i - 2 := by omega
        rw [this, hl]
      have hl2 : fn[i - 1 - 1]? = some l := by
        have : i - 1 - 1 = i - 2 := by omega
        rw [this, hl]
      have hne2 : ¬ i - 1 - 1 = i := by omega
      have h10 : ¬ i - 1 = 0 := by omega
      simp [isLocalMaxima, firstMaximaCondition, secondMaximaCondition, oracleIsMax,
        safePrev, safeNext, hm, hmE, hr, hrE, hl2, hlE, hlenE, hia, hne0, hne2, h10,
        hti, hnext]
  · have hrn : (fn.eraseIdx i)[i]? = none := by
      rw [List.getElem?_eq_none_iff, hlenE]; omega
    by_cases hi1 : i = 1
    · subst hi1
      have hm0 : fn[0]? = some m := by simpa using hm
      have hmE0 : (fn.eraseIdx 1)[0]? = some m := by simpa using hmE
      simp [isLocalMaxima, firstMaximaCondition, secondMaximaCondition, oracleIsMax,
        safePrev, safeNext, hm0, hmE0, hrn, hlenE, hia, hne0, hti, hnext]
    · obtain ⟨l, hl⟩ : ∃ l, fn[i - 2]? = some l :=
        ⟨fn[i - 2], List.getElem?_eq_getElem (by omega)⟩
      have hlE : (fn.eraseIdx i)[i - 1 - 1]? = some l := by
        rw [List.getElem?_eraseIdx_of_lt _ _ _ (by omega)]
        have : i - 1 - 1 = i - 2 := by omega
        rw [this, hl]
      have hl2 : fn[i - 1 - 1]? = some l := by
        have : i - 1 - 1 = i - 2 := by omega
        rw [this, hl]
      have hne2 : ¬ i - 1 - 1 = i := by omega
      have h10 : ¬ i - 1 = 0 := by omega
      simp [isLocalMaxima, firstMaximaCondition, secondMaximaCondition, oracleIsMax,
        safePrev, safeNext, hm, hmE, hrn, hl2, hlE, hlenE, hia, hne0, hne2, h10,
        hti, hnext]

/-! ### Rescan status of untouched points is unchanged -/

theorem oracleIsMax_set_away {fn : List (α × β)} {i j : Nat} {pt : α × β}
    (h1 : j ≠ i) (h2 : j + 1 ≠ i) (h3 : j - 1 ≠ i) :
    oracleIsMax (fn.set i pt) j = oracleIsMax fn j := by
  unfold oracleIsMax
  rw [List.getElem?_set_ne (by omega : i ≠ j), List.getElem?_set_ne (by omega : i ≠ j - 1),
    List.getElem?_set_ne (by omega : i ≠ j + 1)]

theorem oracleIsMax_insertIdx_away_lt {fn : List (α × β)} {n j : Nat} {pt : α × β}
    (hn : n ≤ fn.length) (hj : j + 1 < n) :
    oracleIsMax (fn.insertIdx n pt) j = oracleIsMax fn j := by
  unfold oracleIsMax
  rw [getElem?_insertIdx_lt hn (by omega), getElem?_insertIdx_lt hn (by omega),
    getElem?_insertIdx_lt hn (by omega)]

theorem oracleIsMax_insertIdx_away_gt {fn : List (α × β)} {n j : Nat} {pt : α × β}
    (hn : n ≤ fn.length) (hj : n < j) :
    oracleIsMax (fn.insertIdx n pt) (j + 1) = oracleIsMax fn j := by
  have e1 : (fn.insertIdx n pt)[j + 1]? = fn[j]? := getElem?_insertIdx_succ hn (by omega)
  have e2 : (fn.insertIdx n pt)[j + 1 + 1]? = fn[j + 1]? :=
    getElem?_insertIdx_succ hn (by omega)
  have e3 : (fn.insertIdx n pt)[j + 1 - 1]? = fn[j - 1]? := by
    have hj1 : j - 1 + 1 = j := by omega
    have := getElem?_insertIdx_succ (l := fn) (n := n) (k := j - 1) (x := pt) hn (by omega)
    rw [hj1] at this
    simpa using this
  unfold oracleIsMax
  rw [e1, e2, e3]
  have h0 : ¬ j + 1 = 0 := by omega
  have h0' : ¬ j = 0 := by omega
  simp [h0, h0']

theorem oracleIsMax_eraseIdx_away_lt {fn : List (α × β)} {i j : Nat}
    (hj : j + 1 < i) :
    oracleIsMax (fn.eraseIdx i) j = oracleIsMax fn j := by
  unfold oracleIsMax
  rw [List.getElem?_eraseIdx_of_lt _ _ _ (by omega), List.getElem?_eraseIdx_of_lt _ _ _
    (by omega), List.getElem?_eraseIdx_of_lt _ _ _ (by omega)]

theorem oracleIsMax_eraseIdx_away_gt {fn : List (α × β)} {i k : Nat}
    (hk : i < k) :
    oracleIsMax (fn.eraseIdx i) k = oracleIsMax fn (k + 1) := by
  have e1 : (fn.eraseIdx i)[k]? = fn[k + 1]? := List.getElem?_eraseIdx_of_ge _ _ _ (by omega)
  have e2 : (fn.eraseIdx i)[k + 1]? = fn[k + 2]? :=
    List.getElem?_eraseIdx_of_ge _ _ _ (by omega)
  have e3 : (fn.eraseIdx i)[k - 1]? = fn[k]? := by
    have hk1 : k - 1 + 1 = k := by omega
    have := List.getElem?_eraseIdx_of_ge fn i (k - 1) (by omega)
    rw [hk1] at this
    exact this
  unfold oracleIsMax
  rw [e1, e2, e3]
  have h0 : ¬ k = 0 := by omega
  have h0' : ¬ k + 1 = 0 := by omega
  simp [h0, h0']

/-! ### `ArgSorted` is preserved -/

theorem argSorted_set {fn : List (α × β)} {i : Nat} {pt : α × β}
    (hs : ArgSorted fn) {p : α × β} (hp : fn[i]? = some p) (ha : pt.1 = p.1) :
    ArgSorted (fn.set i pt) := by
  rw [argSorted_iff]
  intro i' j' p' q' hij hp' hq'
  have key : ∀ (k : Nat) (x : α × β), (fn.set i pt)[k]? = some x →
      ∃ y : α × β, fn[k]? = some y ∧ x.1 = y.1 := by
    intro k x hx
    by_cases hk : k = i
    · subst hk
      obtain ⟨hkl, _⟩ := List.getElem?_eq_some_iff.mp hx
      rw [List.getElem?_set_self (by simpa using hkl)] at hx
      exact ⟨p, hp, (Option.some.inj hx) ▸ ha⟩
    · rw [List.getElem?_set_ne (by omega)] at hx
      exact ⟨x, hx, rfl⟩
  obtain ⟨y1, hy1, he1⟩ := key i' p' hp'
  obtain ⟨y2, hy2, he2⟩ := key j' q' hq'
  rw [he1, he2]
  exact argSorted_iff.mp hs i' j' y1 y2 hij hy1 hy2

theorem argSorted_insertIdx {fn : List (α × β)} {n : Nat} {pt : α × β}
    (hs : ArgSorted fn) (hn : n ≤ fn.length)
    (hlt : ∀ j (q : α × β), j < n → fn[j]? = some q → q.1 < pt.1)
    (hgt : ∀ j (q : α × β), n ≤ j → fn[j]? = some q → pt.1 < q.1) :
    ArgSorted (fn.insertIdx n pt) := by
  rw [argSorted_iff]
  intro i' j' p' q' hij hp' hq'
  rcases lt_trichotomy i' n with hi | rfl | hi
  · rw [getElem?_insertIdx_lt hn hi] at hp'
    rcases lt_trichotomy j' n with hj | rfl | hj
    · rw [getElem?_insertIdx_lt hn hj] at hq'
      exact argSorted_iff.mp hs i' j' p' q' hij hp' hq'
    · rw [getElem?_insertIdx_self hn] at hq'
      rw [← Option.some.inj hq']
      exact hlt i' p' hi hp'
    · obtain ⟨m, rfl⟩ : ∃ m, j' = m + 1 := ⟨j' - 1, by omega⟩
      rw [getElem?_insertIdx_succ hn (by omega)] at hq'
      exact argSorted_iff.mp hs i' m p' q' (by omega) hp' hq'
  · rw [getElem?_insertIdx_self hn] at hp'
    obtain ⟨m, rfl⟩ : ∃ m, j' = m + 1 := ⟨j' - 1, by omega⟩
    rw [getElem?_insertIdx_succ hn (by omega)] at hq'
    rw [← Option.some.inj hp']
    exact hgt m q' (by omega) hq'
  · obtain ⟨m, rfl⟩ : ∃ m, i' = m + 1 := ⟨i' - 1, by omega⟩
    rw [getElem?_insertIdx_succ hn (by omega)] at hp'
    obtain ⟨m', rfl⟩ : ∃ m', j' = m' + 1 := ⟨j' - 1, by omega⟩
    rw [getElem?_insertIdx_succ hn (by omega)] at hq'
    exact argSorted_iff.mp hs m m' p' q' (by omega) hp' hq'

theorem argSorted_eraseIdx {fn : List (α × β)} {i : Nat} (hs : ArgSorted fn) :
    ArgSorted (fn.eraseIdx i) :=
  List.Pairwise.sublist (List.eraseIdx_sublist fn i) hs

/-! ### Master characterisation of the mutating operations -/

theorem erase_noop {s : FM α β} {a : α} (hf : find s.function a = none) : erase s a = s := by
  show (eraseF s a none).1 = s
  unfold eraseF
  rw [hf]
  rfl

/-- Full characterisation of a successful `erase` of the point at index `i`:
the store loses exactly that index, and the representation invariant is
maintained (in particular the maxima set equals the rescan of the new
store). -/
theorem erase_spec {s : FM α β} {a : α} {i : Nat} {p : α × β}
    (hInv : Invariant s) (hp : s.function[i]? = some p) (hpa : p.1 = a) :
    (erase s a).function = s.function.eraseIdx i ∧ Invariant (erase s a) := by
  obtain ⟨hsArg, hsMx, hsC⟩ := hInv
  have hi : i < s.function.length := (List.getElem?_eq_some_iff.mp hp).1
  have hf : find s.function a = some i := find_eq_some_of hsArg hp hpa
  set fn := s.function with hfn
  set mx := s.localMaxima with hmx
  set posN := safeNext fn.length (some i) with hposN
  set posP := safePrev (some i) with hposP
  set g1 := changeLocalMaximaGuard fn posN (some i) mx with hg1
  set g3 := changeLocalMaximaGuard fn posP (some i) g1.mx with hg3
  set mxIt := mxFind fn mx (some i) with hmxIt0
  have hposN' : posN = if i + 1 < fn.length then some (i + 1) else none := hposN.trans rfl
  have hposP' : posP = if i = 0 then none else some (i - 1) := hposP.trans rfl
  have hred : erase s a =
      ⟨fn.eraseIdx i, mxEraseIfNotEnd (guardCommit (guardCommit g3.mx g3) g1) mxIt⟩ := by
    show (eraseF s a none).1 = _
    unfold eraseF
    rw [hf]
    rfl
  -- targets of the two guards
  have hT1 : posT fn posN (some i) = fn[i + 1]? := by
    by_cases hnext : i + 1 < fn.length
    · rw [hposN', if_pos hnext]
      unfold posT
      rw [if_neg (by simp)]
      rfl
    · rw [hposN', if_neg hnext]
      unfold posT
      rw [if_neg (by simp)]
      rw [List.getElem?_eq_none (by omega)]
      rfl
  have hT2 : posT fn (some i) (some i) = none := by
    unfold posT
    rw [if_pos rfl]
  have hT3 : posT fn posP (some i) = (if 1 ≤ i then fn[i - 1]? else none) := by
    by_cases h1 : 1 ≤ i
    · rw [hposP', if_neg (by omega), if_pos h1]
      unfold posT
      rw [if_neg (by simp; omega)]
      rfl
    · rw [hposP', if_pos (by omega), if_neg h1]
      unfold posT
      rw [if_neg (by simp)]
      rfl
  -- pipeline facts, with a vacuous middle guard at the ignored position
  have hd12 : ∀ x : α × β, posT fn posN (some i) = some x →
      posT fn (some i) (some i) ≠ some x := by
    intro x _
    rw [hT2]
    simp
  have hd23 : ∀ x : α × β, posT fn (some i) (some i) = some x →
      posT fn posP (some i) ≠ some x := by
    intro x hx
    rw [hT2] at hx
    cases hx
  have hd13 : ∀ x : α × β, posT fn posN (some i) = some x →
      posT fn posP (some i) ≠ some x := by
    intro x hx hy
    rw [hT1] at hx
    rw [hT3] at hy
    by_cases h1 : 1 ≤ i
    · rw [if_pos h1] at hy
      have := argSorted_iff.mp hsArg (i - 1) (i + 1) x x (by omega) hy hx
      exact lt_irrefl _ this
    · rw [if_neg h1] at hy
      cases hy
  have hpip := pipeline_mem hsMx hd12 hd13 hd23 hg1
    ((changeLocalMaximaGuard_eq_of_ignore rfl).symm :
      (⟨g1.mx, none, none⟩ : GuardState α β) = changeLocalMaximaGuard fn (some i) (some i) g1.mx)
    (hg3 : g3 = changeLocalMaximaGuard fn posP (some i)
      (⟨g1.mx, none, none⟩ : GuardState α β).mx)
  have hPs : MxSorted (guardCommit (guardCommit g3.mx g3) g1) := hpip.1
  have hPm : ∀ q : α × β, q ∈ guardCommit (guardCommit g3.mx g3) g1 ↔
      (if posT fn posN (some i) = some q then isLocalMaxima fn posN (some i) = true
       else if posT fn (some i) (some i) = some q then
         isLocalMaxima fn (some i) (some i) = true
       else if posT fn posP (some i) = some q then isLocalMaxima fn posP (some i) = true
       else q ∈ mx) := hpip.2
  -- maxima-set entry of the erased point
  have hmxIt : mxIt = if p ∈ mx then some p else none := by
    rw [hmxIt0]
    have hstep : mxFind fn mx (some i) = fn[i]?.bind (fun x => mxFindPt mx x) := rfl
    rw [hstep, hp]
    show mxFindPt mx p = _
    exact mxFindPt_eq mx p
  -- `B` tests agree with the rescan of the final store
  have hB1 : i + 1 < fn.length → isLocalMaxima fn posN (some i) =
      oracleIsMax (fn.eraseIdx i) i := by
    intro hnext
    rw [hposN', if_pos hnext]
    exact isLocalMaxima_erase_next hi hnext
  have hB3 : 1 ≤ i → isLocalMaxima fn posP (some i) =
      oracleIsMax (fn.eraseIdx i) (i - 1) := by
    intro h1
    rw [hposP', if_neg (by omega)]
    exact isLocalMaxima_erase_prev hi h1
  have hsArgE : ArgSorted (fn.eraseIdx i) := argSorted_eraseIdx hsArg
  refine ⟨by rw [hred], ?_⟩
  rw [hred]
  refine ⟨hsArgE, mxSorted_mxEraseIfNotEnd hPs _, ?_⟩
  intro q
  show q ∈ mxEraseIfNotEnd (guardCommit (guardCommit g3.mx g3) g1) mxIt ↔ _
  rw [mem_mxEraseIfNotEnd (mxSorted_nodup hPs), hPm q, hT1, hT2, hT3]
  by_cases hq1 : fn[i + 1]? = some q
  · -- `q` is the right neighbour of the erased point
    have hnext : i + 1 < fn.length := (List.getElem?_eq_some_iff.mp hq1).1
    have hqgt : p.1 < q.1 := argSorted_iff.mp hsArg i (i + 1) p q (by omega) hp hq1
    have hqp : q ≠ p := by
      intro h
      rw [h] at hqgt
      exact lt_irrefl _ hqgt
    have hmne : mxIt ≠ some q := by
      rw [hmxIt]
      by_cases hpm : p ∈ mx
      · rw [if_pos hpm]
        intro hcon
        exact hqp (Option.some.inj hcon).symm
      · rw [if_neg hpm]
        simp
    have hrE : (fn.eraseIdx i)[i]? = some q := by
      rw [List.getElem?_eraseIdx_of_ge _ _ _ (le_refl i)]
      exact hq1
    rw [if_pos hq1, hB1 hnext]
    constructor
    · intro h
      exact ⟨i, hrE, h.1⟩
    · rintro ⟨j, hj, ho⟩
      have hji : j = i := argSorted_nodupFst hsArgE hj hrE rfl
      subst hji
      exact ⟨ho, hmne⟩
  · rw [if_neg hq1]
    simp only [reduceCtorEq, if_false]
    by_cases hq3 : (if 1 ≤ i then fn[i - 1]? else none) = some q
    · -- `q` is the left neighbour of the erased point
      have h1 : 1 ≤ i := by
        by_contra h1
        rw [if_neg h1] at hq3
        cases hq3
      rw [if_pos h1] at hq3
      have hqlt : q.1 < p.1 := argSorted_iff.mp hsArg (i - 1) i q p (by omega) hq3 hp
      have hqp : q ≠ p := by
        intro h
        rw [h] at hqlt
        exact lt_irrefl _ hqlt
      have hmne : mxIt ≠ some q := by
        rw [hmxIt]
        by_cases hpm : p ∈ mx
        · rw [if_pos hpm]
          intro hcon
          exact hqp (Option.some.inj hcon).symm
        · rw [if_neg hpm]
          simp
      have hmE : (fn.eraseIdx i)[i - 1]? = some q := by
        rw [List.getElem?_eraseIdx_of_lt _ _ _ (by omega)]
        exact hq3
      rw [if_pos (by rw [if_pos h1]; exact hq3), hB3 h1]
      constructor
      · intro h
        exact ⟨i - 1, hmE, h.1⟩
      · rintro ⟨j, hj, ho⟩
        have hji : j = i - 1 := argSorted_nodupFst hsArgE hj hmE rfl
        subst hji
        exact ⟨ho, hmne⟩
    · -- `q` is neither neighbour
      rw [if_neg hq3]
      by_cases hqp : q = p
      · -- the erased point itself: absent on both sides
        subst hqp
        constructor
        · rintro ⟨hqm, hne⟩
          rw [hmxIt, if_pos hqm] at hne
          exact absurd rfl hne
        · rintro ⟨j, hj, _⟩
          exfalso
          by_cases hji : j < i
          · rw [List.getElem?_eraseIdx_of_lt _ _ _ hji] at hj
            have := argSorted_nodupFst hsArg hj hp rfl
            omega
          · rw [List.getElem?_eraseIdx_of_ge _ _ _ (by omega)] at hj
            have := argSorted_nodupFst hsArg hj hp rfl
            omega
      · -- an untouched point: status transfers index-wise
        have hmne : mxIt ≠ some q := by
          rw [hmxIt]
          by_cases hpm : p ∈ mx
          · rw [if_pos hpm]
            intro hcon
            exact hqp (Option.some.inj hcon).symm
          · rw [if_neg hpm]
            simp
        simp only [hmne, ne_eq, not_false_iff, and_true]
        rw [hsC q]
        constructor
        · rintro ⟨j, hj, ho⟩
          have hji : j ≠ i := by
            intro h
            subst h
            exact hqp (Option.some.inj (hj.symm.trans hp))
          by_cases hjlt : j < i
          · have hj1 : j + 1 ≠ i := by
              intro h
              apply hq3
              rw [if_pos (show 1 ≤ i by omega)]
              rw [← h]
              simpa using hj
            refine ⟨j, ?_, ?_⟩
            · rw [List.getElem?_eraseIdx_of_lt _ _ _ hjlt]
              exact hj
            · rw [oracleIsMax_eraseIdx_away_lt (show j + 1 < i by omega)]
              exact ho
          · have hjgt : i < j := by omega
            have hji1 : j ≠ i + 1 := by
              intro h
              subst h
              exact hq1 hj
            obtain ⟨k, rfl⟩ : ∃ k, j = k + 1 := ⟨j - 1, by omega⟩
            refine ⟨k, ?_, ?_⟩
            · rw [List.getElem?_eraseIdx_of_ge _ _ _ (by omega)]
              exact hj
            · rw [oracleIsMax_eraseIdx_away_gt (show i < k by omega)]
              exact ho
        · rintro ⟨j, hj, ho⟩
          by_cases hjlt : j < i
          · have hj' : fn[j]? = some q := by
              rw [List.getElem?_eraseIdx_of_lt _ _ _ hjlt] at hj
              exact hj
            have hj1 : j + 1 ≠ i := by
              intro h
              have h1 : 1 ≤ i := by omega
              apply hq3
              rw [if_pos h1]
              rw [← h]
              simpa using hj'
            refine ⟨j, hj', ?_⟩
            rw [← oracleIsMax_eraseIdx_away_lt (show j + 1 < i by omega)]
            exact ho
          · have hjge : i ≤ j := by omega
            have hj' : fn[j + 1]? = some q := by
              rw [List.getElem?_eraseIdx_of_ge _ _ _ hjge] at hj
              exact hj
            have hji : j ≠ i := by
              intro h
              subst h
              exact hq1 hj'
            refine ⟨j + 1, hj', ?_⟩
            rw [← oracleIsMax_eraseIdx_away_gt (show i < j by omega)]
            exact ho

theorem set_valueGoF_found {s : FM α β} {a : α} {v : β} {i : Nat}
    (hn : s.function.findIdx (fun q => decide (a < q.1)) = i + 1) :
    set_valueGoF s a v (some i) none =
      ((⟨((s.function.insertIdx (i + 1) (a, v))).eraseIdx i,
        mxEraseIfNotEnd
          (guardCommit (guardCommit (guardCommit
            (changeLocalMaximaGuard (s.function.insertIdx (i + 1) (a, v))
              (safePrevWithAvoid (some (i + 1)) (some i)) (some i)
              (changeLocalMaximaGuard (s.function.insertIdx (i + 1) (a, v)) (some (i + 1))
                (some i)
                (changeLocalMaximaGuard (s.function.insertIdx (i + 1) (a, v))
                  (safeNextWithAvoid (s.function.insertIdx (i + 1) (a, v)).length
                    (some (i + 1)) (some i)) (some i) s.localMaxima).mx).mx).mx
            (changeLocalMaximaGuard (s.function.insertIdx (i + 1) (a, v))
              (safePrevWithAvoid (some (i + 1)) (some i)) (some i)
              (changeLocalMaximaGuard (s.function.insertIdx (i + 1) (a, v)) (some (i + 1))
                (some i)
                (changeLocalMaximaGuard (s.function.insertIdx (i + 1) (a, v))
                  (safeNextWithAvoid (s.function.insertIdx (i + 1) (a, v)).length
                    (some (i + 1)) (some i)) (some i) s.localMaxima).mx).mx))
            (changeLocalMaximaGuard (s.function.insertIdx (i + 1) (a, v)) (some (i + 1))
              (some i)
              (changeLocalMaximaGuard (s.function.insertIdx (i + 1) (a, v))
                (safeNextWithAvoid (s.function.insertIdx (i + 1) (a, v)).length
                  (some (i + 1)) (some i)) (some i) s.localMaxima).mx))
            (changeLocalMaximaGuard (s.function.insertIdx (i + 1) (a, v))
              (safeNextWithAvoid (s.function.insertIdx (i + 1) (a, v)).length
                (some (i + 1)) (some i)) (some i) s.localMaxima))
          (mxFind s.function s.localMaxima (some i))⟩ : FM α β), false) := by
  have hmap : (some i).map
      (fun j => if s.function.findIdx (fun q => decide (a < q.1)) ≤ j then j + 1 else j) =
      some i := by
    rw [hn]
    show some (if i + 1 ≤ i then i + 1 else i) = some i
    rw [if_neg (by omega)]
  simp only [set_valueGoF]
  rw [hmap, hn]
  rfl




theorem equivalentValues_eq_false_iff {a b : β} :
    equivalentValues a b = false ↔ a ≠ b := by
  constructor
  · intro h hab
    have h2 := equivalentValues_iff.mpr hab
    rw [h2] at h
    cases h
  · intro h
    cases heq : equivalentValues a b
    · rfl
    · exact absurd (equivalentValues_iff.mp heq) h

/-- Full characterisation of `set_value` when an entry with the same
argument and a different value already exists at index `i`: the store is
point-wise updated and the invariant is maintained. -/
theorem set_value_replace_spec {s : FM α β} {a : α} {v : β} {i : Nat} {p : α × β}
    (hInv : Invariant s) (hp : s.function[i]? = some p) (hpa : p.1 = a)
    (hnv : equivalentValues p.2 v = false) :
    (set_value s a v).function = s.function.set i (a, v) ∧ Invariant (set_value s a v) := by
  obtain ⟨hsArg, hsMx, hsC⟩ := hInv
  have hi : i < s.function.length := (List.getElem?_eq_some_iff.mp hp).1
  have hf : find s.function a = some i := find_eq_some_of hsArg hp hpa
  have hn : s.function.findIdx (fun q => decide (a < q.1)) = i + 1 :=
    upperBound_eq_succ hsArg hp hpa
  have hpv : p ≠ (a, v) := by
    intro h
    have : p.2 = v := by rw [h]
    exact (equivalentValues_eq_false_iff.mp hnv) this
  have hstep : set_value s a v = (set_valueGoF s a v (some i) none).1 := by
    show (set_valueF s a v none).1 = _
    simp only [set_valueF]
    rw [hf]
    have hb : (some i).bind (fun j => s.function[j]?) = some p := by simpa using hp
    rw [hb]
    show (if equivalentPoints p (a, v) = true then (s, false)
      else set_valueGoF s a v (some i) none).1 = _
    have hep : equivalentPoints p (a, v) = false := by
      unfold equivalentPoints
      rw [hnv, Bool.and_false]
    rw [hep]
    rfl
  set fn := s.function with hfn
  set mx := s.localMaxima with hmx
  set pt : α × β := (a, v) with hpt
  set fn2 := fn.insertIdx (i + 1) pt with hfn2
  have hlen2 : fn2.length = fn.length + 1 := List.length_insertIdx _ _ (by omega)
  set posN := safeNextWithAvoid fn2.length (some (i + 1)) (some i) with hposN
  set posP := safePrevWithAvoid (some (i + 1)) (some i) with hposP
  set g1 := changeLocalMaximaGuard fn2 posN (some i) mx with hg1
  set g2 := changeLocalMaximaGuard fn2 (some (i + 1)) (some i) g1.mx with hg2
  set g3 := changeLocalMaximaGuard fn2 posP (some i) g2.mx with hg3
  set mxIt := mxFind fn mx (some i) with hmxIt0
  have hred : set_value s a v = ⟨fn2.eraseIdx i,
      mxEraseIfNotEnd (guardCommit (guardCommit (guardCommit g3.mx g3) g2) g1) mxIt⟩ := by
    rw [hstep, set_valueGoF_found hn]
  -- iterator positions
  have hq : safeNext fn2.length (some (i + 1)) =
      if i + 1 < fn.length then some (i + 2) else none := by
    show (if i + 1 + 1 < fn2.length then some (i + 1 + 1) else none) = _
    rw [hlen2]
    by_cases hc : i + 1 < fn.length
    · rw [if_pos (by omega), if_pos hc]
    · rw [if_neg (by omega), if_neg hc]
  have hposN' : posN = if i + 1 < fn.length then some (i + 2) else none := by
    rw [hposN]
    show (if safeNext fn2.length (some (i + 1)) = some i then
      safeNext fn2.length (safeNext fn2.length (some (i + 1)))
      else safeNext fn2.length (some (i + 1))) = _
    rw [hq]
    by_cases hc : i + 1 < fn.length
    · rw [if_pos hc, if_neg (by simp)]
    · rw [if_neg hc, if_neg (by simp)]
  have hpr : safePrev (some (i + 1)) = some i := by
    show (if i + 1 = 0 then none else some (i + 1 - 1)) = some i
    rw [if_neg (by omega)]
    simp
  have hposP' : posP = if i = 0 then none else some (i - 1) := by
    rw [hposP]
    show (if safePrev (some (i + 1)) = some i then safePrev (safePrev (some (i + 1)))
      else safePrev (some (i + 1))) = _
    rw [hpr, if_pos rfl]
    rfl
  -- guard targets
  have hself : fn2[i + 1]? = some pt := getElem?_insertIdx_self (by omega)
  have hT1 : posT fn2 posN (some i) = fn[i + 1]? := by
    unfold posT
    rw [hposN']
    by_cases hc : i + 1 < fn.length
    · rw [if_pos hc, if_neg (by simp)]
      show fn2[i + 2]? = fn[i + 1]?
      exact getElem?_insertIdx_succ (by omega) (by omega)
    · rw [if_neg hc, if_neg (by simp)]
      rw [List.getElem?_eq_none (by omega)]
      rfl
  have hT2 : posT fn2 (some (i + 1)) (some i) = some pt := by
    unfold posT
    rw [if_neg (by simp)]
    show fn2[i + 1]? = some pt
    exact hself
  have hT3 : posT fn2 posP (some i) = (if 1 ≤ i then fn[i - 1]? else none) := by
    unfold posT
    rw [hposP']
    by_cases h1 : 1 ≤ i
    · rw [if_neg (show ¬ i = 0 by omega),
        if_neg (show ¬ (some (i - 1) : Option Nat) = some i by simp; omega), if_pos h1]
      show fn2[i - 1]? = fn[i - 1]?
      exact getElem?_insertIdx_lt (by omega) (by omega)
    · rw [if_pos (show i = 0 by omega),
        if_neg (show ¬ (none : Option Nat) = some i by simp), if_neg h1]
      rfl
  -- distinctness of the three targets
  have hd12 : ∀ x : α × β, posT fn2 posN (some i) = some x →
      posT fn2 (some (i + 1)) (some i) ≠ some x := by
    intro x hx hy
    rw [hT1] at hx
    rw [hT2] at hy
    have hgt : p.1 < x.1 := argSorted_iff.mp hsArg i (i + 1) p x (by omega) hp hx
    have : x = pt := (Option.some.inj hy).symm
    rw [this, hpt, hpa] at hgt
    exact lt_irrefl a hgt
  have hd13 : ∀ x : α × β, posT fn2 posN (some i) = some x →
      posT fn2 posP (some i) ≠ some x := by
    intro x hx hy
    rw [hT1] at hx
    rw [hT3] at hy
    by_cases h1 : 1 ≤ i
    · rw [if_pos h1] at hy
      have := argSorted_iff.mp hsArg (i - 1) (i + 1) x x (by omega) hy hx
      exact lt_irrefl _ this
    · rw [if_neg h1] at hy
      cases hy
  have hd23 : ∀ x : α × β, posT fn2 (some (i + 1)) (some i) = some x →
      posT fn2 posP (some i) ≠ some x := by
    intro x hx hy
    rw [hT2] at hx
    rw [hT3] at hy
    by_cases h1 : 1 ≤ i
    · rw [if_pos h1] at hy
      have hlt : x.1 < p.1 := argSorted_iff.mp hsArg (i - 1) i x p (by omega) hy hp
      have : x = pt := (Option.some.inj hx).symm
      rw [this, hpt, hpa] at hlt
      exact lt_irrefl a hlt
    · rw [if_neg h1] at hy
      cases hy
  have hpip := pipeline_mem hsMx hd12 hd13 hd23 hg1 hg2 hg3
  have hPs : MxSorted (guardCommit (guardCommit (guardCommit g3.mx g3) g2) g1) := hpip.1
  have hPm := hpip.2
  have hmxIt : mxIt = if p ∈ mx then some p else none := by
    rw [hmxIt0]
    have hs2 : mxFind fn mx (some i) = fn[i]?.bind (fun x => mxFindPt mx x) := rfl
    rw [hs2, hp]
    show mxFindPt mx p = _
    exact mxFindPt_eq mx p
  -- B-tests against the final store
  have hB1 : i + 1 < fn.length →
      isLocalMaxima fn2 posN (some i) = oracleIsMax (fn.set i pt) (i + 1) := by
    intro hc
    rw [hposN', if_pos hc]
    exact isLocalMaxima_replace_next hi hc
  have hB2 : isLocalMaxima fn2 (some (i + 1)) (some i) = oracleIsMax (fn.set i pt) i :=
    isLocalMaxima_replace_curr hi
  have hB3 : 1 ≤ i →
      isLocalMaxima fn2 posP (some i) = oracleIsMax (fn.set i pt) (i - 1) := by
    intro h1
    rw [hposP', if_neg (by omega)]
    exact isLocalMaxima_replace_prev hi h1
  have hfin : fn2.eraseIdx i = fn.set i pt := eraseIdx_insertIdx_succ hi
  have hsArgF : ArgSorted (fn.set i pt) := argSorted_set hsArg hp (by rw [hpt, hpa])
  constructor
  · rw [hred]
    exact hfin
  rw [hred]
  refine ⟨by rw [hfin] at *; exact hsArgF, mxSorted_mxEraseIfNotEnd hPs _, ?_⟩
  intro q
  show q ∈ mxEraseIfNotEnd (guardCommit (guardCommit (guardCommit g3.mx g3) g2) g1) mxIt ↔ _
  rw [mem_mxEraseIfNotEnd (mxSorted_nodup hPs), hPm q, hT1, hT2, hT3]
  rw [hfin]
  by_cases hq1 : fn[i + 1]? = some q
  · -- right neighbour
    have hnext : i + 1 < fn.length := (List.getElem?_eq_some_iff.mp hq1).1
    have hqgt : p.1 < q.1 := argSorted_iff.mp hsArg i (i + 1) p q (by omega) hp hq1
    have hqp : q ≠ p := by
      intro h
      rw [h] at hqgt
      exact lt_irrefl _ hqgt
    have hmne : mxIt ≠ some q := by
      rw [hmxIt]
      by_cases hpm : p ∈ mx
      · rw [if_pos hpm]
        intro hcon
        exact hqp (Option.some.inj hcon).symm
      · rw [if_neg hpm]
        simp
    have hrF : (fn.set i pt)[i + 1]? = some q := by
      rw [List.getElem?_set_ne (by omega)]
      exact hq1
    rw [if_pos hq1, hB1 hnext]
    constructor
    · intro h
      exact ⟨i + 1, hrF, h.1⟩
    · rintro ⟨j, hj, ho⟩
      have hji : j = i + 1 := argSorted_nodupFst hsArgF hj hrF rfl
      subst hji
      exact ⟨ho, hmne⟩
  · rw [if_neg hq1]
    by_cases hq2 : (some pt : Option (α × β)) = some q
    · -- the freshly written point
      have hqpt : q = pt := (Option.some.inj hq2).symm
      subst hqpt
      have hmne : mxIt ≠ some pt := by
        rw [hmxIt]
        by_cases hpm : p ∈ mx
        · rw [if_pos hpm]
          intro hcon
          exact hpv (Option.some.inj hcon)
        · rw [if_neg hpm]
          simp
      have hcF : (fn.set i pt)[i]? = some pt := List.getElem?_set_self hi
      rw [if_pos rfl, hB2]
      constructor
      · intro h
        exact ⟨i, hcF, h.1⟩
      · rintro ⟨j, hj, ho⟩
        have hji : j = i := argSorted_nodupFst hsArgF hj hcF rfl
        subst hji
        exact ⟨ho, hmne⟩
    · rw [if_neg hq2]
      by_cases hq3 : (if 1 ≤ i then fn[i - 1]? else none) = some q
      · -- left neighbour
        have h1 : 1 ≤ i := by
          by_contra h1
          rw [if_neg h1] at hq3
          cases hq3
        rw [if_pos h1] at hq3
        have hqlt : q.1 < p.1 := argSorted_iff.mp hsArg (i - 1) i q p (by omega) hq3 hp
        have hqp : q ≠ p := by
          intro h
          rw [h] at hqlt
          exact lt_irrefl _ hqlt
        have hmne : mxIt ≠ some q := by
          rw [hmxIt]
          by_cases hpm : p ∈ mx
          · rw [if_pos hpm]
            intro hcon
            exact hqp (Option.some.inj hcon).symm
          · rw [if_neg hpm]
            simp
        have hmF : (fn.set i pt)[i - 1]? = some q := by
          rw [List.getElem?_set_ne (by omega)]
          exact hq3
        rw [if_pos (by rw [if_pos h1]; exact hq3), hB3 h1]
        constructor
        · intro h
          exact ⟨i - 1, hmF, h.1⟩
        · rintro ⟨j, hj, ho⟩
          have hji : j = i - 1 := argSorted_nodupFst hsArgF hj hmF rfl
          subst hji
          exact ⟨ho, hmne⟩
      · rw [if_neg hq3]
        by_cases hqp : q = p
        · -- the superseded point: absent on both sides
          subst hqp
          constructor
          · rintro ⟨hqm, hne⟩
            rw [hmxIt, if_pos hqm] at hne
            exact absurd rfl hne
          · rintro ⟨j, hj, _⟩
            exfalso
            have hji : j ≠ i := by
              intro h
              subst h
              rw [List.getElem?_set_self hi] at hj
              exact hpv (Option.some.inj hj).symm
            rw [List.getElem?_set_ne (by omega)] at hj
            have := argSorted_nodupFst hsArg hj hp rfl
            omega
        · -- untouched point
          have hmne : mxIt ≠ some q := by
            rw [hmxIt]
            by_cases hpm : p ∈ mx
            · rw [if_pos hpm]
              intro hcon
              exact hqp (Option.some.inj hcon).symm
            · rw [if_neg hpm]
              simp
          simp only [hmne, ne_eq, not_false_iff, and_true]
          rw [hsC q]
          have hjne : ∀ j : Nat, fn[j]? = some q → j ≠ i ∧ j + 1 ≠ i ∧ j - 1 ≠ i := by
            intro j hj
            refine ⟨?_, ?_, ?_⟩
            · intro h
              subst h
              exact hqp (Option.some.inj (hj.symm.trans hp))
            · intro h
              apply hq3
              rw [if_pos (show 1 ≤ i by omega), ← h]
              simpa using hj
            · intro h
              by_cases hj0 : j = 0
              · have hi0 : i = 0 := by omega
                have hq' : fn[0]? = some q := by rw [← hj0]; exact hj
                have hp' : fn[0]? = some p := by rw [← hi0]; exact hp
                exact hqp (Option.some.inj (hq'.symm.trans hp'))
              · apply hq1
                have hji : j = i + 1 := by omega
                rw [← hji]
                exact hj
          constructor
          · rintro ⟨j, hj, ho⟩
            obtain ⟨hne1, hne2, hne3⟩ := hjne j hj
            refine ⟨j, ?_, ?_⟩
            · rw [List.getElem?_set_ne (by omega)]
              exact hj
            · rw [oracleIsMax_set_away hne1 hne2 hne3]
              exact ho
          · rintro ⟨j, hj, ho⟩
            have hji : j ≠ i := by
              intro h
              subst h
              rw [List.getElem?_set_self hi] at hj
              exact hq2 hj
            rw [List.getElem?_set_ne (by omega)] at hj
            obtain ⟨hne1, hne2, hne3⟩ := hjne j hj
            refine ⟨j, hj, ?_⟩
            rw [← oracleIsMax_set_away hne1 hne2 hne3]
            exact ho




theorem set_valueGoF_notfound {s : FM α β} {a : α} {v : β} {n : Nat}
    (hn : s.function.findIdx (fun q => decide (a < q.1)) = n) :
    set_valueGoF s a v none none =
      ((⟨s.function.insertIdx n (a, v),
        guardCommit (guardCommit (guardCommit
          (changeLocalMaximaGuard (s.function.insertIdx n (a, v))
            (safePrevWithAvoid (some n) none) none
            (changeLocalMaximaGuard (s.function.insertIdx n (a, v)) (some n) none
              (changeLocalMaximaGuard (s.function.insertIdx n (a, v))
                (safeNextWithAvoid (s.function.insertIdx n (a, v)).length (some n) none)
                none s.localMaxima).mx).mx).mx
          (changeLocalMaximaGuard (s.function.insertIdx n (a, v))
            (safePrevWithAvoid (some n) none) none
            (changeLocalMaximaGuard (s.function.insertIdx n (a, v)) (some n) none
              (changeLocalMaximaGuard (s.function.insertIdx n (a, v))
                (safeNextWithAvoid (s.function.insertIdx n (a, v)).length (some n) none)
                none s.localMaxima).mx).mx))
          (changeLocalMaximaGuard (s.function.insertIdx n (a, v)) (some n) none
            (changeLocalMaximaGuard (s.function.insertIdx n (a, v))
              (safeNextWithAvoid (s.function.insertIdx n (a, v)).length (some n) none)
              none s.localMaxima).mx))
          (changeLocalMaximaGuard (s.function.insertIdx n (a, v))
            (safeNextWithAvoid (s.function.insertIdx n (a, v)).length (some n) none)
            none s.localMaxima)⟩ : FM α β), false) := by
  simp only [set_valueGoF]
  rw [hn]
  rfl

/-- Full characterisation of `set_value` when no entry with argument `a`
exists: the new point is inserted at its ordered position and the
invariant is maintained. -/
theorem set_value_insert_spec {s : FM α β} {a : α} {v : β}
    (hInv : Invariant s) (hf : find s.function a = none) :
    (set_value s a v).function =
      s.function.insertIdx (s.function.findIdx (fun q => decide (a < q.1))) (a, v) ∧
      Invariant (set_value s a v) := by
  obtain ⟨hsArg, hsMx, hsC⟩ := hInv
  have hstep : set_value s a v = (set_valueGoF s a v none none).1 := by
    show (set_valueF s a v none).1 = _
    simp only [set_valueF]
    rw [hf]
    rfl
  have hnone : ∀ p ∈ s.function, p.1 ≠ a := find_eq_none_iff.mp hf
  set fn := s.function with hfn
  set mx := s.localMaxima with hmx
  set pt : α × β := (a, v) with hpt
  set n := fn.findIdx (fun q => decide (a < q.1)) with hnn
  have hnlen : n ≤ fn.length := upperBound_le_length fn a
  have hlt : ∀ (j : Nat) (q : α × β), j < n → fn[j]? = some q → q.1 < a := by
    intro j q hj hq
    exact upperBound_lt_of_lt hnone hj hq
  have hgt : ∀ (j : Nat) (q : α × β), n ≤ j → fn[j]? = some q → a < q.1 := by
    intro j q hj hq
    have hjl : j < fn.length := (List.getElem?_eq_some_iff.mp hq).1
    have hnl : n < fn.length := lt_of_le_of_lt hj hjl
    obtain ⟨w, hw⟩ : ∃ w, fn[n]? = some w := ⟨fn[n], List.getElem?_eq_getElem hnl⟩
    have haw : a < w.1 := upperBound_gt hw
    rcases eq_or_lt_of_le hj with rfl | hlt2
    · rw [hw] at hq
      rw [← Option.some.inj hq]
      exact haw
    · exact lt_trans haw (argSorted_iff.mp hsArg n j w q hlt2 hw hq)
  set fn2 := fn.insertIdx n pt with hfn2
  have hlen2 : fn2.length = fn.length + 1 := List.length_insertIdx _ _ hnlen
  have hsArgF : ArgSorted fn2 := by
    refine argSorted_insertIdx hsArg hnlen ?_ ?_
    · intro j q hj hq
      exact hlt j q hj hq
    · intro j q hj hq
      exact hgt j q hj hq
  set posN := safeNextWithAvoid fn2.length (some n) none with hposN
  set posP := safePrevWithAvoid (some n) none with hposP
  set g1 := changeLocalMaximaGuard fn2 posN none mx with hg1
  set g2 := changeLocalMaximaGuard fn2 (some n) none g1.mx with hg2
  set g3 := changeLocalMaximaGuard fn2 posP none g2.mx with hg3
  have hred : set_value s a v =
      ⟨fn2, guardCommit (guardCommit (guardCommit g3.mx g3) g2) g1⟩ := by
    rw [hstep, set_valueGoF_notfound hnn.symm]
  -- iterator positions
  have hq0 : safeNext fn2.length (some n) = if n < fn.length then some (n + 1) else none := by
    show (if n + 1 < fn2.length then some (n + 1) else none) = _
    rw [hlen2]
    by_cases hc : n < fn.length
    · rw [if_pos (by omega), if_pos hc]
    · rw [if_neg (by omega), if_neg hc]
  have hposN' : posN = if n < fn.length then some (n + 1) else none := by
    rw [hposN]
    show (if safeNext fn2.length (some n) = none then
      safeNext fn2.length (safeNext fn2.length (some n))
      else safeNext fn2.length (some n)) = _
    rw [hq0]
    by_cases hc : n < fn.length
    · rw [if_pos hc]
      rw [if_neg (by simp)]
    · rw [if_neg hc]
      rw [if_pos rfl]
      rfl
  have hposP' : posP = if n = 0 then none else some (n - 1) := by
    rw [hposP]
    show (if safePrev (some n) = none then safePrev (safePrev (some n))
      else safePrev (some n)) = _
    by_cases hc : n = 0
    · rw [show safePrev (some n) = none by
        show (if n = 0 then none else some (n - 1)) = none
        rw [if_pos hc]]
      rw [if_pos rfl, if_pos hc]
      rfl
    · rw [show safePrev (some n) = some (n - 1) by
        show (if n = 0 then none else some (n - 1)) = some (n - 1)
        rw [if_neg hc]]
      rw [if_neg (by simp), if_neg hc]
  -- guard targets
  have hself : fn2[n]? = some pt := getElem?_insertIdx_self hnlen
  have hT1 : posT fn2 posN (none : Option Nat) = fn[n]? := by
    unfold posT
    rw [hposN']
    by_cases hc : n < fn.length
    · rw [if_pos hc, if_neg (by simp)]
      show fn2[n + 1]? = fn[n]?
      exact getElem?_insertIdx_succ hnlen (le_refl n)
    · rw [if_neg hc, if_pos rfl]
      rw [List.getElem?_eq_none (by omega)]
  have hT2 : posT fn2 (some n) (none : Option Nat) = some pt := by
    unfold posT
    rw [if_neg (by simp)]
    exact hself
  have hT3 : posT fn2 posP (none : Option Nat) = (if 1 ≤ n then fn[n - 1]? else none) := by
    unfold posT
    rw [hposP']
    by_cases h1 : 1 ≤ n
    · rw [if_neg (show ¬ n = 0 by omega),
        if_neg (show ¬ (some (n - 1) : Option Nat) = none by simp), if_pos h1]
      show fn2[n - 1]? = fn[n - 1]?
      exact getElem?_insertIdx_lt hnlen (by omega)
    · rw [if_pos (show n = 0 by omega), if_pos rfl, if_neg h1]
  -- distinctness
  have hd12 : ∀ x : α × β, posT fn2 posN (none : Option Nat) = some x →
      posT fn2 (some n) (none : Option Nat) ≠ some x := by
    intro x hx hy
    rw [hT1] at hx
    rw [hT2] at hy
    have hax : a < x.1 := hgt n x (le_refl n) hx
    have : x = pt := (Option.some.inj hy).symm
    rw [this, hpt] at hax
    exact lt_irrefl a hax
  have hd13 : ∀ x : α × β, posT fn2 posN (none : Option Nat) = some x →
      posT fn2 posP (none : Option Nat) ≠ some x := by
    intro x hx hy
    rw [hT1] at hx
    rw [hT3] at hy
    by_cases h1 : 1 ≤ n
    · rw [if_pos h1] at hy
      have := argSorted_iff.mp hsArg (n - 1) n x x (by omega) hy hx
      exact lt_irrefl _ this
    · rw [if_neg h1] at hy
      cases hy
  have hd23 : ∀ x : α × β, posT fn2 (some n) (none : Option Nat) = some x →
      posT fn2 posP (none : Option Nat) ≠ some x := by
    intro x hx hy
    rw [hT2] at hx
    rw [hT3] at hy
    by_cases h1 : 1 ≤ n
    · rw [if_pos h1] at hy
      have hxa : x.1 < a := hlt (n - 1) x (by omega) hy
      have : x = pt := (Option.some.inj hx).symm
      rw [this, hpt] at hxa
      exact lt_irrefl a hxa
    · rw [if_neg h1] at hy
      cases hy
  have hpip := pipeline_mem hsMx hd12 hd13 hd23 hg1 hg2 hg3
  have hPs : MxSorted (guardCommit (guardCommit (guardCommit g3.mx g3) g2) g1) := hpip.1
  have hPm := hpip.2
  -- B-tests against the final store
  have hB1 : n < fn.length →
      isLocalMaxima fn2 posN (none : Option Nat) = oracleIsMax fn2 (n + 1) := by
    intro hc
    rw [hposN', if_pos hc]
    exact isLocalMaxima_no_ignore (by omega)
  have hB2 : isLocalMaxima fn2 (some n) (none : Option Nat) = oracleIsMax fn2 n :=
    isLocalMaxima_no_ignore (by omega)
  have hB3 : 1 ≤ n →
      isLocalMaxima fn2 posP (none : Option Nat) = oracleIsMax fn2 (n - 1) := by
    intro h1
    rw [hposP', if_neg (by omega)]
    exact isLocalMaxima_no_ignore (by omega)
  constructor
  · rw [hred]
  rw [hred]
  refine ⟨hsArgF, hPs, ?_⟩
  intro q
  show q ∈ guardCommit (guardCommit (guardCommit g3.mx g3) g2) g1 ↔ _
  rw [hPm q, hT1, hT2, hT3]
  by_cases hq1 : fn[n]? = some q
  · -- the displaced successor
    have hnl : n < fn.length := (List.getElem?_eq_some_iff.mp hq1).1
    have hrF : fn2[n + 1]? = some q := by
      rw [getElem?_insertIdx_succ hnlen (le_refl n)]
      exact hq1
    rw [if_pos hq1, hB1 hnl]
    constructor
    · intro h
      exact ⟨n + 1, hrF, h⟩
    · rintro ⟨j, hj, ho⟩
      have hji : j = n + 1 := argSorted_nodupFst hsArgF hj hrF rfl
      subst hji
      exact ho
  · rw [if_neg hq1]
    by_cases hq2 : (some pt : Option (α × β)) = some q
    · -- the new point
      have hqpt : q = pt := (Option.some.inj hq2).symm
      subst hqpt
      rw [if_pos rfl, hB2]
      constructor
      · intro h
        exact ⟨n, hself, h⟩
      · rintro ⟨j, hj, ho⟩
        have hji : j = n := argSorted_nodupFst hsArgF hj hself rfl
        subst hji
        exact ho
    · rw [if_neg hq2]
      by_cases hq3 : (if 1 ≤ n then fn[n - 1]? else none) = some q
      · -- the displaced predecessor
        have h1 : 1 ≤ n := by
          by_contra h1
          rw [if_neg h1] at hq3
          cases hq3
        rw [if_pos h1] at hq3
        have hmF : fn2[n - 1]? = some q := by
          rw [getElem?_insertIdx_lt hnlen (by omega)]
          exact hq3
        rw [if_pos (by rw [if_pos h1]; exact hq3), hB3 h1]
        constructor
        · intro h
          exact ⟨n - 1, hmF, h⟩
        · rintro ⟨j, hj, ho⟩
          have hji : j = n - 1 := argSorted_nodupFst hsArgF hj hmF rfl
          subst hji
          exact ho
      · -- untouched point
        rw [if_neg hq3]
        rw [hsC q]
        constructor
        · rintro ⟨j, hj, ho⟩
          have hjn : j ≠ n := by
            intro h
            subst h
            exact hq1 hj
          by_cases hjlt : j < n
          · have hj1 : j + 1 ≠ n := by
              intro h
              apply hq3
              rw [if_pos (show 1 ≤ n by omega), ← h]
              simpa using hj
            refine ⟨j, ?_, ?_⟩
            · rw [getElem?_insertIdx_lt hnlen hjlt]
              exact hj
            · rw [oracleIsMax_insertIdx_away_lt hnlen (show j + 1 < n by omega)]
              exact ho
          · have hjgt : n < j := by omega
            refine ⟨j + 1, ?_, ?_⟩
            · rw [getElem?_insertIdx_succ hnlen (by omega)]
              exact hj
            · rw [oracleIsMax_insertIdx_away_gt hnlen hjgt]
              exact ho
        · rintro ⟨k, hk, ho⟩
          have hkn : k ≠ n := by
            intro h
            subst h
            rw [hself] at hk
            exact hq2 hk
          by_cases hklt : k < n
          · have hk' : fn[k]? = some q := by
              rw [getElem?_insertIdx_lt hnlen hklt] at hk
              exact hk
            have hk1 : k + 1 ≠ n := by
              intro h
              apply hq3
              rw [if_pos (show 1 ≤ n by omega), ← h]
              simpa using hk'
            refine ⟨k, hk', ?_⟩
            rw [← oracleIsMax_insertIdx_away_lt hnlen (show k + 1 < n by omega)]
            exact ho
          · have hkgt : n < k := by omega
            obtain ⟨j, rfl⟩ : ∃ j, k = j + 1 := ⟨k - 1, by omega⟩
            have hk' : fn[j]? = some q := by
              rw [getElem?_insertIdx_succ hnlen (by omega)] at hk
              exact hk
            have hjn : j ≠ n := by
              intro h
              subst h
              exact hq1 hk'
            refine ⟨j, hk', ?_⟩
            rw [← oracleIsMax_insertIdx_away_gt hnlen (show n < j by omega)]
            exact ho

theorem set_value_noop {s : FM α β} {a : α} {v : β} {i : Nat} {p : α × β}
    (hf : find s.function a = some i) (hp : s.function[i]? = some p)
    (heq : equivalentPoints p (a, v) = true) : set_value s a v = s := by
  show (set_valueF s a v none).1 = s
  simp only [set_valueF]
  rw [hf]
  have hb : (some i).bind (fun j => s.function[j]?) = some p := by simpa using hp
  rw [hb]
  show (if equivalentPoints p (a, v) = true then (s, false)
    else set_valueGoF s a v (some i) none).1 = s
  rw [heq]
  rfl

/-! ### The invariant holds in every reachable state -/

theorem invariant_set_value {s : FM α β} (hInv : Invariant s) (a : α) (v : β) :
    Invariant (set_value s a v) := by
  cases hfind : find s.function a with
  | none => exact (set_value_insert_spec hInv hfind).2
  | some i =>
    obtain ⟨p, hp, hpa⟩ := (find_eq_some_iff hInv.1).mp hfind
    by_cases hv : equivalentValues p.2 v = true
    · have heq : equivalentPoints p (a, v) = true := by
        unfold equivalentPoints
        rw [hv, equivalentArguments_iff.mpr hpa]
        rfl
      rw [set_value_noop hfind hp heq]
      exact hInv
    · have hv' : equivalentValues p.2 v = false := bool_eq_false_of_not hv
      exact (set_value_replace_spec hInv hp hpa hv').2

theorem invariant_erase {s : FM α β} (hInv : Invariant s) (a : α) :
    Invariant (erase s a) := by
  cases hfind : find s.function a with
  | none =>
    rw [erase_noop hfind]
    exact hInv
  | some i =>
    obtain ⟨p, hp, hpa⟩ := (find_eq_some_iff hInv.1).mp hfind
    exact (erase_spec hInv hp hpa).2

theorem invariant_empty : Invariant (emptyFM : FM α β) := by
  refine ⟨List.Pairwise.nil, List.Pairwise.nil, ?_⟩
  intro q
  constructor
  · intro h
    cases h
  · rintro ⟨i, hi, _⟩
    cases hi

theorem invariant_of_reachable {s : FM α β} (h : Reachable s) : Invariant s := by
  induction h with
  | empty => exact invariant_empty
  | step_set s a v _ ih => exact invariant_set_value ih a v
  | step_erase s a _ ih => exact invariant_erase ih a

/-! ### Rollback is exact -/

theorem guard_rollback_id {fn : List (α × β)} {pos ignore : Option Nat}
    {mx : List (α × β)} :
    guardRollback (changeLocalMaximaGuard fn pos ignore mx).mx
      (changeLocalMaximaGuard fn pos ignore mx) = mx := by
  by_cases hig : pos = ignore
  · rw [changeLocalMaximaGuard_eq_of_ignore hig]
    rfl
  · cases hv : pos.bind (fun i => fn[i]?) with
    | none =>
      rw [changeLocalMaximaGuard_eq_of_invalid hig hv]
      rfl
    | some p =>
      obtain ⟨i, rfl⟩ : ∃ i, pos = some i := by
        cases pos with
        | none => cases hv
        | some i => exact ⟨i, rfl⟩
      have hp : fn[i]? = some p := by simpa using hv
      rw [changeLocalMaximaGuard_eq_valid hp hig]
      by_cases hL : isLocalMaxima fn (some i) ignore = true
      · rw [if_pos hL]
        by_cases hm : p ∈ mx
        · rw [if_pos hm]
          rfl
        · rw [if_neg hm]
          show (mxInsert mx p).erase p = mx
          exact mxInsert_erase_of_not_mem hm
      · rw [if_neg hL]
        by_cases hm : p ∈ mx
        · rw [if_pos hm]
          rfl
        · rw [if_neg hm]
          rfl

theorem set_valueGoF_none_snd (s : FM α β) (a : α) (v : β) (it : Option Nat) :
    (set_valueGoF s a v it none).2 = false := by
  cases it
  · rfl
  · rfl

theorem set_valueGoF_fail_fst (s : FM α β) (a : α) (v : β) (it : Option Nat) (fp : FailPt)
    (h1 : fp ≠ FailPt.atFind) (h2 : fp ≠ FailPt.atPointAlloc) :
    (set_valueGoF s a v it (some fp)).1 = s := by
  cases fp with
  | atFind => exact absurd rfl h1
  | atPointAlloc => exact absurd rfl h2
  | atMxFind => rfl
  | atFnInsert => rfl
  | atGuardNext =>
    have hfn : (set_valueGoF s a v it (some FailPt.atGuardNext)).1.function = s.function := by
      show (List.insertIdx _ (a, v) s.function).eraseIdx _ = s.function
      exact List.eraseIdx_insertIdx _ _
    have hmx : (set_valueGoF s a v it (some FailPt.atGuardNext)).1.localMaxima =
        s.localMaxima := rfl
    have hx : (set_valueGoF s a v it (some FailPt.atGuardNext)).1 =
        ⟨(set_valueGoF s a v it (some FailPt.atGuardNext)).1.function,
         (set_valueGoF s a v it (some FailPt.atGuardNext)).1.localMaxima⟩ := rfl
    rw [hx, hfn, hmx]
  | atGuardCurr =>
    have hfn : (set_valueGoF s a v it (some FailPt.atGuardCurr)).1.function = s.function := by
      show (List.insertIdx _ (a, v) s.function).eraseIdx _ = s.function
      exact List.eraseIdx_insertIdx _ _
    have hmx : (set_valueGoF s a v it (some FailPt.atGuardCurr)).1.localMaxima =
        s.localMaxima := by
      show guardRollback (changeLocalMaximaGuard _ _ _ s.localMaxima).mx
        (changeLocalMaximaGuard _ _ _ s.localMaxima) = s.localMaxima
      exact guard_rollback_id
    have hx : (set_valueGoF s a v it (some FailPt.atGuardCurr)).1 =
        ⟨(set_valueGoF s a v it (some FailPt.atGuardCurr)).1.function,
         (set_valueGoF s a v it (some FailPt.atGuardCurr)).1.localMaxima⟩ := rfl
    rw [hx, hfn, hmx]
  | atGuardPrev =>
    have hfn : (set_valueGoF s a v it (some FailPt.atGuardPrev)).1.function = s.function := by
      show (List.insertIdx _ (a, v) s.function).eraseIdx _ = s.function
      exact List.eraseIdx_insertIdx _ _
    have hmx : (set_valueGoF s a v it (some FailPt.atGuardPrev)).1.localMaxima =
        s.localMaxima := by
      show guardRollback (guardRollback
          (changeLocalMaximaGuard _ _ _
            (changeLocalMaximaGuard _ _ _ s.localMaxima).mx).mx
          (changeLocalMaximaGuard _ _ _
            (changeLocalMaximaGuard _ _ _ s.localMaxima).mx))
        (changeLocalMaximaGuard _ _ _ s.localMaxima) = s.localMaxima
      rw [guard_rollback_id, guard_rollback_id]
    have hx : (set_valueGoF s a v it (some FailPt.atGuardPrev)).1 =
        ⟨(set_valueGoF s a v it (some FailPt.atGuardPrev)).1.function,
         (set_valueGoF s a v it (some FailPt.atGuardPrev)).1.localMaxima⟩ := rfl
    rw [hx, hfn, hmx]

theorem set_valueF_none_snd (s : FM α β) (a : α) (v : β) :
    (set_valueF s a v none).2 = false := by
  simp only [set_valueF]
  cases hb : (find s.function a).bind (fun j => s.function[j]?) with
  | none => exact set_valueGoF_none_snd s a v _
  | some oldPt =>
    by_cases he : equivalentPoints oldPt (a, v) = true
    · simp only [he]
      rfl
    · have hfalse := bool_eq_false_of_not he
      simp only [hfalse]
      exact set_valueGoF_none_snd s a v _

theorem set_valueF_some_fst (s : FM α β) (a : α) (v : β) (fp : FailPt) :
    (set_valueF s a v (some fp)).1 = s := by
  cases fp with
  | atFind => rfl
  | atPointAlloc => rfl
  | atMxFind =>
    simp only [set_valueF]
    cases hb : (find s.function a).bind (fun j => s.function[j]?) with
    | none => exact set_valueGoF_fail_fst s a v (find s.function a) FailPt.atMxFind (by decide) (by decide)
    | some oldPt =>
      by_cases he : equivalentPoints oldPt (a, v) = true
      · simp only [he]
        rfl
      · have hfalse := bool_eq_false_of_not he
        simp only [hfalse]
        exact set_valueGoF_fail_fst s a v (find s.function a) FailPt.atMxFind (by decide) (by decide)
  | atFnInsert =>
    simp only [set_valueF]
    cases hb : (find s.function a).bind (fun j => s.function[j]?) with
    | none => exact set_valueGoF_fail_fst s a v (find s.function a) FailPt.atFnInsert (by decide) (by decide)
    | some oldPt =>
      by_cases he : equivalentPoints oldPt (a, v) = true
      · simp only [he]
        rfl
      · have hfalse := bool_eq_false_of_not he
        simp only [hfalse]
        exact set_valueGoF_fail_fst s a v (find s.function a) FailPt.atFnInsert (by decide) (by decide)
  | atGuardNext =>
    simp only [set_valueF]
    cases hb : (find s.function a).bind (fun j => s.function[j]?) with
    | none => exact set_valueGoF_fail_fst s a v (find s.function a) FailPt.atGuardNext (by decide) (by decide)
    | some oldPt =>
      by_cases he : equivalentPoints oldPt (a, v) = true
      · simp only [he]
        rfl
      · have hfalse := bool_eq_false_of_not he
        simp only [hfalse]
        exact set_valueGoF_fail_fst s a v (find s.function a) FailPt.atGuardNext (by decide) (by decide)
  | atGuardCurr =>
    simp only [set_valueF]
    cases hb : (find s.function a).bind (fun j => s.function[j]?) with
    | none => exact set_valueGoF_fail_fst s a v (find s.function a) FailPt.atGuardCurr (by decide) (by decide)
    | some oldPt =>
      by_cases he : equivalentPoints oldPt (a, v) = true
      · simp only [he]
        rfl
      · have hfalse := bool_eq_false_of_not he
        simp only [hfalse]
        exact set_valueGoF_fail_fst s a v (find s.function a) FailPt.atGuardCurr (by decide) (by decide)
  | atGuardPrev =>
    simp only [set_valueF]
    cases hb : (find s.function a).bind (fun j => s.function[j]?) with
    | none => exact set_valueGoF_fail_fst s a v (find s.function a) FailPt.atGuardPrev (by decide) (by decide)
    | some oldPt =>
      by_cases he : equivalentPoints oldPt (a, v) = true
      · simp only [he]
        rfl
      · have hfalse := bool_eq_false_of_not he
        simp only [hfalse]
        exact set_valueGoF_fail_fst s a v (find s.function a) FailPt.atGuardPrev (by decide) (by decide)

theorem eraseF_none_snd (s : FM α β) (a : α) : (eraseF s a none).2 = false := by
  simp only [eraseF]
  cases hf : find s.function a
  · rfl
  · rfl

theorem eraseF_some_fst (s : FM α β) (a : α) (fp : FailPt)
    (h : (eraseF s a (some fp)).2 = true) : (eraseF s a (some fp)).1 = s := by
  cases fp with
  | atFind => rfl
  | atMxFind => rfl
  | atPointAlloc =>
    rw [show eraseF s a (some FailPt.atPointAlloc) = eraseF s a none from rfl,
      eraseF_none_snd] at h
    cases h
  | atFnInsert =>
    rw [show eraseF s a (some FailPt.atFnInsert) = eraseF s a none from rfl,
      eraseF_none_snd] at h
    cases h
  | atGuardCurr =>
    rw [show eraseF s a (some FailPt.atGuardCurr) = eraseF s a none from rfl,
      eraseF_none_snd] at h
    cases h
  | atGuardNext =>
    simp only [eraseF]
    cases hf : find s.function a
    · rfl
    · rfl
  | atGuardPrev =>
    simp only [eraseF]
    cases hf : find s.function a with
    | none => rfl
    | some i =>
      show (⟨s.function, guardRollback
          (changeLocalMaximaGuard s.function (safeNext s.function.length (some i)) (some i)
            s.localMaxima).mx
          (changeLocalMaximaGuard s.function (safeNext s.function.length (some i)) (some i)
            s.localMaxima)⟩ : FM α β) = s
      rw [guard_rollback_id]

/-! ### `value_at` as a pure lookup -/

theorem value_at_found {s : FM α β} {a : α} {i : Nat} {p : α × β}
    (hf : find s.function a = some i) (hp : s.function[i]? = some p) :
    value_at s a = some p.2 := by
  unfold value_at
  rw [hf]
  have hb : (some i).bind (fun j => s.function[j]?) = some p := by simpa using hp
  rw [hb]

theorem value_at_eq_none_iff {s : FM α β} {a : α} :
    value_at s a = none ↔ find s.function a = none := by
  cases hf : find s.function a with
  | none =>
    have hv : value_at s a = none := by
      unfold value_at
      rw [hf]
      rfl
    simp [hv]
  | some i =>
    have hf' := hf
    unfold find at hf'
    obtain ⟨hi, -, -⟩ := List.findIdx?_eq_some_iff_getElem.mp hf'
    have hv : value_at s a = some (s.function[i]).2 :=
      value_at_found hf (List.getElem?_eq_getElem hi)
    rw [hv]
    simp

/-! ### Sequences of operations -/

/-- A completed mutating call. -/
inductive Op (α β : Type) : Type
  | setv (a : α) (v : β) : Op α β
  | del (a : α) : Op α β

def applyOp (s : FM α β) : Op α β → FM α β
  | Op.setv a v => set_value s a v
  | Op.del a => erase s a

def applyOps (s : FM α β) (ops : List (Op α β)) : FM α β :=
  ops.foldl applyOp s

/-- The operation does not write to argument `a`. -/
def avoids (a : α) : Op α β → Prop
  | Op.setv b _ => equivalentArguments b a = false
  | Op.del _ => True

theorem invariant_applyOp {s : FM α β} (hInv : Invariant s) (op : Op α β) :
    Invariant (applyOp s op) := by
  cases op with
  | setv b v => exact invariant_set_value hInv b v
  | del b => exact invariant_erase hInv b

theorem absent_applyOp {s : FM α β} (hInv : Invariant s) {a : α} (op : Op α β)
    (hav : avoids a op) (habs : find s.function a = none) :
    find (applyOp s op).function a = none := by
  have hmemrule : ∀ t : FM α β, (∀ p : α × β, p ∈ t.function → p ∈ s.function ∨
      (∃ b v, Op.setv b v = op ∧ p = (b, v))) → find t.function a = none := by
    intro t hmem
    rw [find_eq_none_iff]
    intro p hp
    rcases hmem p hp with hin | ⟨b, v, hop, rfl⟩
    · exact (find_eq_none_iff.mp habs) p hin
    · cases op with
      | setv b' v' =>
        obtain ⟨rfl, rfl⟩ : b' = b ∧ v' = v := by
          constructor <;> cases hop <;> rfl
        exact equivalentArguments_eq_false_iff.mp hav
      | del _ => cases hop
  cases op with
  | setv b v =>
    cases hfb : find s.function b with
    | none =>
      have hins := set_value_insert_spec (v := v) hInv hfb
      apply hmemrule
      intro p hp
      have hp' : p ∈ (set_value s b v).function := hp
      rw [hins.1] at hp'
      rcases (List.mem_insertIdx (upperBound_le_length s.function b)).mp hp' with rfl | hp2
      · exact Or.inr ⟨b, v, rfl, rfl⟩
      · exact Or.inl hp2
    | some i =>
      obtain ⟨p0, hp0, hp0a⟩ := (find_eq_some_iff hInv.1).mp hfb
      by_cases hv : equivalentValues p0.2 v = true
      · have heq : equivalentPoints p0 (b, v) = true := by
          unfold equivalentPoints
          rw [hv, equivalentArguments_iff.mpr hp0a]
          rfl
        show find (applyOp s (Op.setv b v)).function a = none
        show find (set_value s b v).function a = none
        rw [set_value_noop hfb hp0 heq]
        exact habs
      · have hv' : equivalentValues p0.2 v = false := bool_eq_false_of_not hv
        have hrep := set_value_replace_spec hInv hp0 hp0a hv'
        apply hmemrule
        intro p hp
        have hp' : p ∈ (set_value s b v).function := hp
        rw [hrep.1] at hp'
        rcases List.mem_or_eq_of_mem_set hp' with hp2 | rfl
        · exact Or.inl hp2
        · exact Or.inr ⟨b, v, rfl, rfl⟩
  | del b =>
    cases hfb : find s.function b with
    | none =>
      show find (erase s b).function a = none
      rw [erase_noop hfb]
      exact habs
    | some i =>
      obtain ⟨p0, hp0, hp0a⟩ := (find_eq_some_iff hInv.1).mp hfb
      have hdel := erase_spec hInv hp0 hp0a
      apply hmemrule
      intro p hp
      have hp' : p ∈ (erase s b).function := hp
      rw [hdel.1] at hp'
      exact Or.inl (List.Sublist.mem hp' (List.eraseIdx_sublist _ _))

theorem absent_applyOps {s : FM α β} (hInv : Invariant s) {a : α} (ops : List (Op α β))
    (hav : ∀ op ∈ ops, avoids a op) (habs : find s.function a = none) :
    find (applyOps s ops).function a = none := by
  induction ops generalizing s with
  | nil => exact habs
  | cons op t ih =>
    show find (applyOps (applyOp s op) t).function a = none
    exact ih (invariant_applyOp hInv op)
      (fun o ho => hav o (List.mem_cons_of_mem op ho))
      (absent_applyOp hInv op (hav op (List.mem_cons_self op t)) habs)

/-! ### The largest stored value heads the maxima list -/

theorem exists_max_val {l : List (α × β)} (h : l ≠ []) :
    ∃ p ∈ l, ∀ q ∈ l, q.2 ≤ p.2 := by
  induction l with
  | nil => exact absurd rfl h
  | cons x t ih =>
    cases t with
    | nil =>
      refine ⟨x, List.mem_cons_self x [], ?_⟩
      intro q hq
      rcases List.mem_cons.mp hq with rfl | hq
      · exact le_refl _
      · cases hq
    | cons y u =>
      obtain ⟨p, hpmem, hpmax⟩ := ih (by simp)
      by_cases hx : x.2 ≤ p.2
      · refine ⟨p, List.mem_cons_of_mem x hpmem, ?_⟩
        intro q hq
        rcases List.mem_cons.mp hq with rfl | hq
        · exact hx
        · exact hpmax q hq
      · refine ⟨x, List.mem_cons_self x _, ?_⟩
        intro q hq
        rcases List.mem_cons.mp hq with rfl | hq
        · exact le_refl _
        · exact le_trans (hpmax q hq) (le_of_not_le hx)

theorem maxima_head_dominates {s : FM α β} (hInv : Invariant s)
    (hne : s.function ≠ []) :
    s.localMaxima ≠ [] ∧
      ∃ p : α × β, s.localMaxima.head? = some p ∧ ∀ q ∈ s.function, q.2 ≤ p.2 := by
  obtain ⟨hsArg, hsMx, hsC⟩ := hInv
  obtain ⟨pm, hpmMem, hpmMax⟩ := exists_max_val hne
  obtain ⟨m, hm⟩ := List.mem_iff_getElem?.mp hpmMem
  have hmOracle : oracleIsMax s.function m = true := by
    unfold oracleIsMax
    rw [hm]
    cases hl : s.function[m - 1]? with
    | none =>
      cases hr : s.function[m + 1]? with
      | none => simp
      | some r =>
        have hrle : r.2 ≤ pm.2 := hpmMax r (List.getElem?_mem hr)
        simp [valueLessOrEqual_iff.mpr hrle]
    | some l =>
      have hlle : l.2 ≤ pm.2 := hpmMax l (List.getElem?_mem hl)
      cases hr : s.function[m + 1]? with
      | none => simp [valueLessOrEqual_iff.mpr hlle]
      | some r =>
        have hrle : r.2 ≤ pm.2 := hpmMax r (List.getElem?_mem hr)
        simp [valueLessOrEqual_iff.mpr hlle, valueLessOrEqual_iff.mpr hrle]
  have hpmInMx : pm ∈ s.localMaxima := (hsC pm).mpr ⟨m, hm, hmOracle⟩
  cases hmx : s.localMaxima with
  | nil =>
    rw [hmx] at hpmInMx
    cases hpmInMx
  | cons h0 t =>
    refine ⟨by simp, h0, by simp, ?_⟩
    intro q hq
    have hqpm : q.2 ≤ pm.2 := hpmMax q hq
    have hpmh0 : pm.2 ≤ h0.2 := by
      rw [hmx] at hpmInMx
      rcases List.mem_cons.mp hpmInMx with rfl | hpm
      · exact le_refl _
      · have hlt : MxLt h0 pm := by
          rw [MxSorted, hmx] at hsMx
          exact (List.pairwise_cons.mp hsMx).1 pm hpm
        rcases mxLt_iff.mp hlt with hv | ⟨hv, _⟩
        · exact le_of_lt hv
        · exact le_of_eq hv.symm
    exact le_trans hqpm hpmh0

/-! ### Copy-on-write sharing (the `FunctionMaxima` handle) -/

/-- The heap of implementation objects together with the handles that
point into it; this models the `std::shared_ptr<Impl>` aliasing of
`FunctionMaxima` objects. -/
structure Sys (α β : Type) where
  heap : List (FM α β)
  handles : List Nat

/-- The implementation state observable through handle `h` (all public
reads — `size`, `value_at`, both traversals — are functions of it). -/
def readH (w : Sys α β) (h : Nat) : Option (FM α β) :=
  (w.handles[h]?).bind (fun i => w.heap[i]?)

/-- `shared_ptr::use_count` of the implementation at heap index `i`. -/
def useCount (w : Sys α β) (i : Nat) : Nat := w.handles.count i

/-- Copying a handle shares the implementation (reference-count bump, no
deep copy). -/
def copyHandle (w : Sys α β) (h : Nat) : Sys α β :=
  match w.handles[h]? with
  | some i => ⟨w.heap, w.handles ++ [i]⟩
  | none => w

/-- Embeds `FunctionMaxima::cowMutator`: when the implementation is
shared, clone it, run the mutation on the clone, and swap it in only on
success; when exclusive, mutate in place.  The mutation `f` returns the
resulting implementation state and whether it raised. -/
def cowMutator (w : Sys α β) (h : Nat) (f : FM α β → FM α β × Bool) : Sys α β × Bool :=
  match w.handles[h]? with
  | none => (w, false)
  | some i =>
    match w.heap[i]? with
    | none => (w, false)
    | some impl =>
      if 1 < useCount w i then
        if (f impl).2 then (w, true)
        else (⟨w.heap ++ [(f impl).1], w.handles.set h w.heap.length⟩, false)
      else
        (⟨w.heap.set i (f impl).1, w.handles⟩, (f impl).2)

theorem two_le_count_of_two_getElem {l : List Nat} {x : Nat} {a b : Nat} (hab : a ≠ b)
    (ha : l[a]? = some x) (hb : l[b]? = some x) : 2 ≤ l.count x := by
  induction l generalizing a b with
  | nil => cases ha
  | cons y t ih =>
    cases a with
    | zero =>
      cases b with
      | zero => exact absurd rfl hab
      | succ b' =>
        have hy : y = x := by simpa using ha
        have hmem : x ∈ t := List.getElem?_mem (by simpa using hb)
        have hpos : 0 < t.count x := List.count_pos_iff.mpr hmem
        subst hy
        rw [List.count_cons_self]
        omega
    | succ a' =>
      cases b with
      | zero =>
        have hy : y = x := by simpa using hb
        have hmem : x ∈ t := List.getElem?_mem (by simpa using ha)
        have hpos : 0 < t.count x := List.count_pos_iff.mpr hmem
        subst hy
        rw [List.count_cons_self]
        omega
      | succ b' =>
        have h2 := ih (show a' ≠ b' by omega) (by simpa using ha) (by simpa using hb)
        exact le_trans h2 (List.count_le_count_cons x y t)

/-- Mutating through a shared handle never changes what any other handle
sharing the same implementation observes, whether the mutation succeeds
or raises. -/
theorem cowMutator_preserves_other {w : Sys α β} {h1 h2 i : Nat} (hne : h1 ≠ h2)
    (hh1 : w.handles[h1]? = some i) (hh2 : w.handles[h2]? = some i)
    (hheap : i < w.heap.length) (f : FM α β → FM α β × Bool) :
    readH (cowMutator w h1 f).1 h2 = readH w h2 := by
  obtain ⟨impl, himpl⟩ : ∃ impl, w.heap[i]? = some impl :=
    ⟨w.heap[i], List.getElem?_eq_getElem hheap⟩
  have hcnt : 1 < useCount w i := two_le_count_of_two_getElem hne hh1 hh2
  simp only [cowMutator]
  rw [hh1]
  simp only []
  rw [himpl]
  simp only []
  rw [if_pos hcnt]
  by_cases hf2 : (f impl).2 = true
  · rw [if_pos hf2]
  · rw [if_neg hf2]
    unfold readH
    rw [List.getElem?_set_ne hne, hh2]
    show (w.heap ++ [(f impl).1])[i]? = w.heap[i]?
    exact List.getElem?_append_left hheap

/-- Copying a handle changes no observation through any existing handle. -/
theorem copyHandle_preserves {w : Sys α β} (g k : Nat) (hk : k < w.handles.length) :
    readH (copyHandle w g) k = readH w k := by
  unfold copyHandle
  cases hg : w.handles[g]? with
  | none => rfl
  | some j =>
    unfold readH
    rw [List.getElem?_append_left hk]

/-! ### Consequences of the invariant used by the individual claims -/

theorem argSorted_arg_ne {fn : List (α × β)} (hs : ArgSorted fn) {i j : Nat}
    (hij : i ≠ j) {p q : α × β} (hp : fn[i]? = some p) (hq : fn[j]? = some q) :
    p.1 ≠ q.1 := by
  obtain ⟨hi, rfl⟩ := List.getElem?_eq_some_iff.mp hp
  obtain ⟨hj, rfl⟩ := List.getElem?_eq_some_iff.mp hq
  rw [ArgSorted, List.pairwise_iff_getElem] at hs
  rcases Nat.lt_or_ge i j with h | h
  · exact ne_of_lt (hs i j hi hj h)
  · exact (ne_of_lt (hs j i hj hi (by omega))).symm

theorem exists_getElem?_of_mem_eraseIdx {l : List (α × β)} {i : Nat} {q : α × β}
    (hq : q ∈ l.eraseIdx i) : ∃ j : Nat, j ≠ i ∧ l[j]? = some q := by
  obtain ⟨k, hk⟩ := List.mem_iff_getElem?.mp hq
  rcases Nat.lt_or_ge k i with h | h
  · refine ⟨k, by omega, ?_⟩
    rw [← List.getElem?_eraseIdx_of_lt _ _ _ h]
    exact hk
  · refine ⟨k + 1, by omega, ?_⟩
    rw [← List.getElem?_eraseIdx_of_ge _ _ _ h]
    exact hk

/-- After `set_value`, the store holds `(a, v)` and the lookup finds it. -/
theorem set_value_finds {s : FM α β} (hInv : Invariant s) (a : α) (v : β) :
    ∃ j : Nat, find (set_value s a v).function a = some j ∧
      (set_value s a v).function[j]? = some (a, v) := by
  cases hf : find s.function a with
  | none =>
    have hins := set_value_insert_spec (v := v) hInv hf
    have hn : (set_value s a v).function[s.function.findIdx
        (fun q => decide (a < q.1))]? = some (a, v) := by
      rw [hins.1]
      exact getElem?_insertIdx_self (upperBound_le_length s.function a)
    exact ⟨_, find_eq_some_of hins.2.1 hn rfl, hn⟩
  | some i =>
    obtain ⟨p, hp, hpa⟩ := (find_eq_some_iff hInv.1).mp hf
    by_cases hv : equivalentValues p.2 v = true
    · have hpv : p = (a, v) := Prod.ext hpa (equivalentValues_iff.mp hv)
      have heq : equivalentPoints p (a, v) = true := by
        unfold equivalentPoints
        rw [equivalentArguments_iff.mpr hpa, hv]
        rfl
      rw [set_value_noop hf hp heq]
      exact ⟨i, hf, hpv ▸ hp⟩
    · have hrep := set_value_replace_spec hInv hp hpa (bool_eq_false_of_not hv)
      have hi : i < s.function.length := (List.getElem?_eq_some_iff.mp hp).1
      have hn : (set_value s a v).function[i]? = some (a, v) := by
        rw [hrep.1]
        exact List.getElem?_set_self hi
      exact ⟨i, find_eq_some_of hrep.2.1 hn rfl, hn⟩

/-- After a completed `erase a`, no lookup of `a` succeeds. -/
theorem value_at_erase_self {s : FM α β} (hInv : Invariant s) (a : α) :
    value_at (erase s a) a = none := by
  cases hf : find s.function a with
  | none =>
    rw [erase_noop hf]
    exact value_at_eq_none_iff.mpr hf
  | some i =>
    obtain ⟨p, hp, hpa⟩ := (find_eq_some_iff hInv.1).mp hf
    have hdel := erase_spec hInv hp hpa
    rw [value_at_eq_none_iff, find_eq_none_iff]
    intro q hq
    have hq' : q ∈ (erase s a).function := hq
    rw [hdel.1] at hq'
    obtain ⟨j, hji, hj⟩ := exists_getElem?_of_mem_eraseIdx hq'
    have hne := argSorted_arg_ne hInv.1 hji hj hp
    intro hcon
    exact hne (hcon.trans hpa.symm)

/-! ### The claims -/

/-- Claim C1: after any sequence of completed `set_value`/`erase` calls
from the empty structure, the maxima set holds exactly the stored points
the full-rescan local-maximum predicate accepts (no left neighbour or
left value `≤` own, and likewise on the right), listed in decreasing
value order with ties broken by increasing argument. -/
theorem claim_C1_maxima_index_matches_oracle {s : FM α β} (h : Reachable s) :
    (∀ q : α × β, q ∈ s.localMaxima ↔
      ∃ i : Nat, s.function[i]? = some q ∧ oracleIsMax s.function i = true) ∧
    s.localMaxima.Pairwise (fun p q => q.2 < p.2 ∨ (p.2 = q.2 ∧ p.1 < q.1)) := by
  obtain ⟨hArg, hMx, hC⟩ := invariant_of_reachable h
  exact ⟨hC, hMx.imp (fun hpq => mxLt_iff.mp hpq)⟩

theorem claim_C1_witness :
    (∀ q : Int × Int, q ∈ (set_value (emptyFM : FM Int Int) 0 10).localMaxima ↔
      ∃ i : Nat, (set_value (emptyFM : FM Int Int) 0 10).function[i]? = some q ∧
        oracleIsMax (set_value (emptyFM : FM Int Int) 0 10).function i = true) ∧
    (set_value (emptyFM : FM Int Int) 0 10).localMaxima.Pairwise
      (fun p q => q.2 < p.2 ∨ (p.2 = q.2 ∧ p.1 < q.1)) :=
  claim_C1_maxima_index_matches_oracle (Reachable.step_set emptyFM 0 10 Reachable.empty)

/-- Claim C2: a `set_value` or `erase` call that hits an injected
allocation/comparator failure reports the failure and leaves the state —
store, maxima set, `size`, every `value_at` — exactly as before the call
(strong failure guarantee).  The two operations' guarantees are
independent: each is conditioned only on its own call failing, at any of
the injection points. -/
theorem claim_C2_strong_failure_guarantee (s : FM α β) (a : α) (v : β) (fp : FailPt) :
    ((set_valueF s a v (some fp)).2 = true →
      (set_valueF s a v (some fp)).1 = s ∧
      size (set_valueF s a v (some fp)).1 = size s ∧
      ∀ b : α, value_at (set_valueF s a v (some fp)).1 b = value_at s b) ∧
    ((eraseF s a (some fp)).2 = true →
      (eraseF s a (some fp)).1 = s ∧
      size (eraseF s a (some fp)).1 = size s ∧
      ∀ b : α, value_at (eraseF s a (some fp)).1 b = value_at s b) := by
  constructor
  · intro _
    have h1 := set_valueF_some_fst s a v fp
    exact ⟨h1, by rw [h1], fun b => by rw [h1]⟩
  · intro her
    have h2 := eraseF_some_fst s a fp her
    exact ⟨h2, by rw [h2], fun b => by rw [h2]⟩

theorem claim_C2_witness :
    ((set_valueF (emptyFM : FM Int Int) 0 20 (some FailPt.atGuardCurr)).1 = emptyFM ∧
      size (set_valueF (emptyFM : FM Int Int) 0 20 (some FailPt.atGuardCurr)).1 =
        size (emptyFM : FM Int Int) ∧
      ∀ b : Int, value_at (set_valueF (emptyFM : FM Int Int) 0 20
        (some FailPt.atGuardCurr)).1 b = value_at (emptyFM : FM Int Int) b) ∧
    ((eraseF (⟨[((0:Int),(10:Int))], [(0, 10)]⟩ : FM Int Int) 0
        (some FailPt.atGuardPrev)).1 = ⟨[(0, 10)], [(0, 10)]⟩ ∧
      size (eraseF (⟨[((0:Int),(10:Int))], [(0, 10)]⟩ : FM Int Int) 0
        (some FailPt.atGuardPrev)).1 =
        size (⟨[((0:Int),(10:Int))], [(0, 10)]⟩ : FM Int Int) ∧
      ∀ b : Int, value_at (eraseF (⟨[((0:Int),(10:Int))], [(0, 10)]⟩ : FM Int Int) 0
        (some FailPt.atGuardPrev)).1 b =
        value_at (⟨[((0:Int),(10:Int))], [(0, 10)]⟩ : FM Int Int) b) :=
  ⟨(claim_C2_strong_failure_guarantee (emptyFM : FM Int Int)
      0 20 FailPt.atGuardCurr).1 (by decide),
    (claim_C2_strong_failure_guarantee (⟨[((0:Int),(10:Int))], [(0, 10)]⟩ : FM Int Int)
      0 20 FailPt.atGuardPrev).2 (by decide)⟩

/-- Claim C3: when two handles share one implementation, a mutation
through one handle — succeeding or failing — changes nothing observable
through the other, and copying a handle changes nothing observable
through any existing handle. -/
theorem claim_C3_cow_isolation {w : Sys α β} {h1 h2 i : Nat} (hne : h1 ≠ h2)
    (hh1 : w.handles[h1]? = some i) (hh2 : w.handles[h2]? = some i)
    (hheap : i < w.heap.length) :
    (∀ f : FM α β → FM α β × Bool,
      readH (cowMutator w h1 f).1 h2 = readH w h2) ∧
    (∀ g k : Nat, k < w.handles.length → readH (copyHandle w g) k = readH w k) :=
  ⟨fun f => cowMutator_preserves_other hne hh1 hh2 hheap f,
    fun g k hk => copyHandle_preserves g k hk⟩

theorem claim_C3_witness :
    (∀ f : FM Int Int → FM Int Int × Bool,
      readH (cowMutator (⟨[emptyFM], [0, 0]⟩ : Sys Int Int) 0 f).1 1 =
        readH (⟨[emptyFM], [0, 0]⟩ : Sys Int Int) 1) ∧
    (∀ g k : Nat, k < (⟨[emptyFM], [0, 0]⟩ : Sys Int Int).handles.length →
      readH (copyHandle (⟨[emptyFM], [0, 0]⟩ : Sys Int Int) g) k =
        readH (⟨[emptyFM], [0, 0]⟩ : Sys Int Int) k) :=
  claim_C3_cow_isolation (i := 0) (by decide) (by decide) (by decide) (by decide)

/-- Claim C4: `value_at a` fails (returns `none`, the `InvalidArg`
outcome) exactly when no stored point has an argument equivalent to `a`,
and otherwise returns the stored value; it is a pure lookup of the
state. -/
theorem claim_C4_value_at_lookup (s : FM α β) (a : α) :
    (value_at s a = none ↔ ∀ p ∈ s.function, equivalentArguments p.1 a = false) ∧
    ∀ (i : Nat) (p : α × β), find s.function a = some i → s.function[i]? = some p →
      value_at s a = some p.2 := by
  constructor
  · rw [value_at_eq_none_iff, find_eq_none_iff]
    constructor
    · intro h p hp
      exact equivalentArguments_eq_false_iff.mpr (h p hp)
    · intro h p hp
      exact equivalentArguments_eq_false_iff.mp (h p hp)
  · intro i p hf hp
    exact value_at_found hf hp

theorem claim_C4_witness :
    (value_at (⟨[((1:Int),(5:Int))], [(1, 5)]⟩ : FM Int Int) 2 = none ↔
      ∀ p ∈ (⟨[((1:Int),(5:Int))], [(1, 5)]⟩ : FM Int Int).function,
        equivalentArguments p.1 2 = false) ∧
    ∀ (i : Nat) (p : Int × Int),
      find (⟨[((1:Int),(5:Int))], [(1, 5)]⟩ : FM Int Int).function 2 = some i →
      (⟨[((1:Int),(5:Int))], [(1, 5)]⟩ : FM Int Int).function[i]? = some p →
      value_at (⟨[((1:Int),(5:Int))], [(1, 5)]⟩ : FM Int Int) 2 = some p.2 :=
  claim_C4_value_at_lookup (⟨[((1:Int),(5:Int))], [(1, 5)]⟩ : FM Int Int) 2

/-- Claim C5: a completed `set_value a v` followed by `value_at a`
returns `v`. -/
theorem claim_C5_set_then_value_at {s : FM α β} (hInv : Invariant s) (a : α) (v : β) :
    value_at (set_value s a v) a = some v := by
  obtain ⟨j, hf, hp⟩ := set_value_finds hInv a v
  exact value_at_found hf hp

theorem claim_C5_witness :
    value_at (set_value (emptyFM : FM Int Int) 3 42) 3 = some 42 :=
  claim_C5_set_then_value_at invariant_empty 3 42

/-- Claim C6: `erase a` is a no-op when `a` is absent; after it, `a` is
gone from both the store and the maxima set, `value_at a` fails, and
keeps failing across any further operations that do not write `a`. -/
theorem claim_C6_erase_semantics {s : FM α β} (hInv : Invariant s) (a : α) :
    (find s.function a = none → erase s a = s) ∧
    value_at (erase s a) a = none ∧
    (∀ p ∈ (erase s a).function, equivalentArguments p.1 a = false) ∧
    (∀ p ∈ (erase s a).localMaxima, equivalentArguments p.1 a = false) ∧
    ∀ ops : List (Op α β), (∀ op ∈ ops, avoids a op) →
      value_at (applyOps (erase s a) ops) a = none := by
  have habs : value_at (erase s a) a = none := value_at_erase_self hInv a
  have hfind : find (erase s a).function a = none := value_at_eq_none_iff.mp habs
  have hfn : ∀ p ∈ (erase s a).function, p.1 ≠ a := find_eq_none_iff.mp hfind
  refine ⟨fun hf => erase_noop hf, habs, ?_, ?_, ?_⟩
  · intro p hp
    exact equivalentArguments_eq_false_iff.mpr (hfn p hp)
  · intro p hp
    obtain ⟨i, hi, -⟩ := ((invariant_erase hInv a).2.2 p).mp hp
    exact equivalentArguments_eq_false_iff.mpr (hfn p (List.getElem?_mem hi))
  · intro ops hav
    exact value_at_eq_none_iff.mpr (absent_applyOps (invariant_erase hInv a) ops hav hfind)

theorem claim_C6_witness :
    (find (set_value (emptyFM : FM Int Int) 5 7).function 5 = none →
      erase (set_value (emptyFM : FM Int Int) 5 7) 5 = set_value (emptyFM : FM Int Int) 5 7) ∧
    value_at (erase (set_value (emptyFM : FM Int Int) 5 7) 5) 5 = none ∧
    (∀ p ∈ (erase (set_value (emptyFM : FM Int Int) 5 7) 5).function,
      equivalentArguments p.1 5 = false) ∧
    (∀ p ∈ (erase (set_value (emptyFM : FM Int Int) 5 7) 5).localMaxima,
      equivalentArguments p.1 5 = false) ∧
    ∀ ops : List (Op Int Int), (∀ op ∈ ops, avoids 5 op) →
      value_at (applyOps (erase (set_value (emptyFM : FM Int Int) 5 7) 5) ops) 5 = none :=
  claim_C6_erase_semantics
    (invariant_of_reachable (Reachable.step_set emptyFM 5 7 Reachable.empty)) 5

/-- Claim C7, amended: when `a` is already mapped to a point equivalent
to `(a, v)`, `set_value a v` changes no observable state — and that
holds under every injected failure as well — and the call is idempotent;
the original claim's "no exception risk" part is false, because the
candidate point is allocated before the no-op check runs (see the
counterexample). -/
theorem claim_C7_noop_amended {s : FM α β} {a : α} {v : β} {i : Nat} {p : α × β}
    (hf : find s.function a = some i) (hp : s.function[i]? = some p)
    (hpv : equivalentPoints p (a, v) = true) :
    set_value s a v = s ∧
    (∀ fp : FailPt, (set_valueF s a v (some fp)).1 = s) ∧
    set_value (set_value s a v) a v = set_value s a v := by
  have h1 := set_value_noop hf hp hpv
  refine ⟨h1, fun fp => set_valueF_some_fst s a v fp, ?_⟩
  simp only [h1]

theorem claim_C7_witness :
    set_value (⟨[((0:Int),(10:Int))], [(0, 10)]⟩ : FM Int Int) 0 10 =
      (⟨[((0:Int),(10:Int))], [(0, 10)]⟩ : FM Int Int) ∧
    (∀ fp : FailPt, (set_valueF (⟨[((0:Int),(10:Int))], [(0, 10)]⟩ : FM Int Int) 0 10
      (some fp)).1 = (⟨[((0:Int),(10:Int))], [(0, 10)]⟩ : FM Int Int)) ∧
    set_value (set_value (⟨[((0:Int),(10:Int))], [(0, 10)]⟩ : FM Int Int) 0 10) 0 10 =
      set_value (⟨[((0:Int),(10:Int))], [(0, 10)]⟩ : FM Int Int) 0 10 :=
  claim_C7_noop_amended (i := 0) (p := ((0:Int),(10:Int)))
    (by decide) (by decide) (by decide)

/-- Claim C7, counterexample to the original "no exception risk" part:
in a state where argument `0` is already mapped to `10` — a state
reachable by one `set_value` — the value-equivalent call
`set_value 0 10` still reaches the up-front point allocation, so an
allocation failure injected there is reported to the caller rather than
being impossible. -/
theorem claim_C7_counterexample :
    value_at (set_value (emptyFM : FM Int Int) 0 10) 0 = some 10 ∧
    (set_valueF (set_value (emptyFM : FM Int Int) 0 10) 0 10
      (some FailPt.atPointAlloc)).2 = true := by
  decide

/-- Claim C8: the concrete scenario — inserting `(1,10), (2,20), (3,10),
(4,30), (5,5)` yields the maxima traversal `(4,30), (2,20)`, and a
subsequent `erase 4` yields `(2,20)` alone. -/
theorem claim_C8_concrete_scenario :
    (set_value (set_value (set_value (set_value (set_value (emptyFM : FM Int Int)
      1 10) 2 20) 3 10) 4 30) 5 5).localMaxima = [(4, 30), (2, 20)] ∧
    (erase (set_value (set_value (set_value (set_value (set_value (emptyFM : FM Int Int)
      1 10) 2 20) 3 10) 4 30) 5 5) 4).localMaxima = [(2, 20)] := by
  decide

/-- Claim C9: after any sequence of completed public operations, no two
stored points are argument-equivalent. -/
theorem claim_C9_unique_arguments {s : FM α β} (h : Reachable s) :
    s.function.Pairwise (fun p q => equivalentArguments p.1 q.1 = false) := by
  exact (invariant_of_reachable h).1.imp
    (fun hpq => equivalentArguments_eq_false_iff.mpr (ne_of_lt hpq))

theorem claim_C9_witness :
    (set_value (set_value (emptyFM : FM Int Int) 0 10) 1 20).function.Pairwise
      (fun p q => equivalentArguments p.1 q.1 = false) :=
  claim_C9_unique_arguments
    (Reachable.step_set _ 1 20 (Reachable.step_set emptyFM 0 10 Reachable.empty))

/-- Claim C10: in every reachable non-empty state the maxima traversal
is non-empty and its first point's value dominates every stored value. -/
theorem claim_C10_top_maximum {s : FM α β} (h : Reachable s) (hne : 0 < size s) :
    s.localMaxima ≠ [] ∧
      ∃ p : α × β, s.localMaxima.head? = some p ∧ ∀ q ∈ s.function, q.2 ≤ p.2 := by
  have hfn : s.function ≠ [] := by
    intro hcon
    rw [size, hcon] at hne
    exact absurd hne (by simp)
  exact maxima_head_dominates (invariant_of_reachable h) hfn

theorem claim_C10_witness :
    (set_value (emptyFM : FM Int Int) 2 9).localMaxima ≠ [] ∧
      ∃ p : Int × Int, (set_value (emptyFM : FM Int Int) 2 9).localMaxima.head? = some p ∧
        ∀ q ∈ (set_value (emptyFM : FM Int Int) 2 9).function, q.2 ≤ p.2 :=
  claim_C10_top_maximum (Reachable.step_set emptyFM 2 9 Reachable.empty) (by decide)

end FMax
